import Mathlib

/-!
Verification of the Traktor reconciliation engine of the Harmony track-library
manager (Rust sources under `src-tauri/src`), against its natural-language
specification.

A shallow embedding: Rust structs become Lean structures, pure Rust functions
become Lean functions.  Machine integers (`i32`, `i64`, `usize`) are modelled
as `Int`/`Nat` (no claim here depends on wrap-around), `f64` values that the
code only parses from and formats to decimal strings are modelled as `Rat`,
and fallible operations return `Option`.  SQLite-backed store operations are
modelled as pure functions on an explicit store value, following the SQL
statements in `libs/database.rs`.
-/

namespace Harmony

/-! ## Canonical data model (`libs/track.rs`, `libs/cue_point.rs`) -/

/-- `TrackRating` from `libs/track.rs`. -/
structure TrackRating where
  source : Option String
  rating : Int
deriving DecidableEq

/-- Canonical `Track` record from `libs/track.rs`.  `duration` and `added_at`
are millisecond quantities (`i64` upstream), `waveform_peaks` a list of
normalized values (`f64` upstream, modelled as `Rat`). -/
structure Track where
  id : String
  path : String
  title : String
  artist : Option String
  album : Option String
  genre : Option String
  year : Option Int
  duration : Int
  bitrate : Option Int
  comment : Option String
  bpm : Option Int
  initial_key : Option String
  rating : Option TrackRating
  label : Option String
  waveform_peaks : Option (List Rat)
  added_at : Option Int
  url : Option String
deriving DecidableEq

/-- `CueType` from `libs/cue_point.rs`. -/
inductive CueType where
  | HotCue
  | FadeIn
  | FadeOut
  | Load
  | Grid
  | Loop
deriving DecidableEq

/-- `CueType::as_str` from `libs/cue_point.rs`. -/
def CueType.as_str : CueType → String
  | .HotCue => "hot_cue"
  | .FadeIn => "fade_in"
  | .FadeOut => "fade_out"
  | .Load => "load"
  | .Grid => "grid"
  | .Loop => "loop"

/-- Canonical `CuePoint` record from `libs/cue_point.rs`; positions and
lengths are milliseconds (`f64` upstream, modelled as `Rat`). -/
structure CuePoint where
  id : String
  track_id : String
  cue_type : CueType
  position_ms : Rat
  length_ms : Option Rat
  hotcue_slot : Option Int
  name : Option String
  color : Option String
  order : Option Int
deriving DecidableEq

/-! ## Conflict resolver (`libs/traktor/conflict_resolver.rs`) -/

/-- Track merge strategies. -/
inductive MergeStrategy where
  | SmartMerge
  | TraktorWins
  | HarmonyWins
deriving DecidableEq

/-- Cue-point merge strategies. -/
inductive CueMergeStrategy where
  | SmartMerge
  | Replace
deriving DecidableEq

/-- Result of `merge_track`. -/
structure MergeResult where
  merged : Track
  has_changes : Bool
  fields_updated : List String
deriving DecidableEq

/-- Result of `merge_cue_points`. -/
structure CueMergeResult where
  merged : List CuePoint
  has_changes : Bool
  added : Nat
  removed : Nat
deriving DecidableEq

/-- Model of Rust `str::trim`: drop whitespace from both ends. -/
def strTrim (s : String) : String :=
  ⟨((s.data.dropWhile Char.isWhitespace).reverse.dropWhile Char.isWhitespace).reverse⟩

/-- `is_string_empty`: `None`, empty, or whitespace-only. -/
def is_string_empty : Option String → Bool
  | none => true
  | some s => (strTrim s).data.isEmpty

/-- `is_int_empty`: `None` or exactly `0`. -/
def is_int_empty : Option Int → Bool
  | none => true
  | some v => v = 0

/-- Emptiness test used for the (non-optional) `title` field:
`title.trim().is_empty()`. -/
def trimEmpty (s : String) : Bool := (strTrim s).data.isEmpty

/-- One mergeable-field block of `merge_track`.  Every field block in the
source has the same shape, differing only in the emptiness test:
under `TraktorWins` adopt Traktor's value when it is non-empty and differs;
otherwise (i.e. under `SmartMerge`) adopt it when the Harmony value is empty
and Traktor's is non-empty.  Returns the resulting value and whether the
field was updated (pushed onto `fields_updated`). -/
def mergeFieldValue {α : Type} [DecidableEq α] (strategy : MergeStrategy)
    (isEmptyF : α → Bool) (hv tv : α) : α × Bool :=
  if strategy = MergeStrategy.TraktorWins then
    if isEmptyF tv = false ∧ hv ≠ tv then (tv, true) else (hv, false)
  else
    if isEmptyF hv = true ∧ isEmptyF tv = false then (tv, true) else (hv, false)

/-- `merge_track` from `libs/traktor/conflict_resolver.rs`.  Starts from a
copy of the Harmony track (identity fields `id`, `path`, `duration`,
`waveform_peaks`, `url`, `added_at` are never touched), returns the Harmony
track unchanged under `HarmonyWins`, and otherwise processes the eleven
mergeable fields in source order, collecting the names of updated fields. -/
def merge_track (harmony traktor : Track) (strategy : MergeStrategy) : MergeResult :=
  if strategy = MergeStrategy.HarmonyWins then
    { merged := harmony, has_changes := false, fields_updated := [] }
  else
    let title := mergeFieldValue strategy trimEmpty harmony.title traktor.title
    let artist := mergeFieldValue strategy is_string_empty harmony.artist traktor.artist
    let album := mergeFieldValue strategy is_string_empty harmony.album traktor.album
    let genre := mergeFieldValue strategy is_string_empty harmony.genre traktor.genre
    let year := mergeFieldValue strategy is_int_empty harmony.year traktor.year
    let bpm := mergeFieldValue strategy is_int_empty harmony.bpm traktor.bpm
    let initialKey := mergeFieldValue strategy is_string_empty harmony.initial_key traktor.initial_key
    let rating := mergeFieldValue strategy Option.isNone harmony.rating traktor.rating
    let comment := mergeFieldValue strategy is_string_empty harmony.comment traktor.comment
    let bitrate := mergeFieldValue strategy is_int_empty harmony.bitrate traktor.bitrate
    let label := mergeFieldValue strategy is_string_empty harmony.label traktor.label
    let fields_updated : List String :=
      (if title.2 then ["title"] else []) ++
      (if artist.2 then ["artist"] else []) ++
      (if album.2 then ["album"] else []) ++
      (if genre.2 then ["genre"] else []) ++
      (if year.2 then ["year"] else []) ++
      (if bpm.2 then ["bpm"] else []) ++
      (if initialKey.2 then ["initial_key"] else []) ++
      (if rating.2 then ["rating"] else []) ++
      (if comment.2 then ["comment"] else []) ++
      (if bitrate.2 then ["bitrate"] else []) ++
      (if label.2 then ["label"] else [])
    { merged := { harmony with
        title := title.1, artist := artist.1, album := album.1, genre := genre.1,
        year := year.1, bpm := bpm.1, initial_key := initialKey.1, rating := rating.1,
        comment := comment.1, bitrate := bitrate.1, label := label.1 }
      has_changes := fields_updated.isEmpty = false
      fields_updated := fields_updated }

/-- `merge_cue_points` from `libs/traktor/conflict_resolver.rs`.  Under
`SmartMerge` with existing Harmony cues, keep them unchanged; otherwise
(`Replace`, or no Harmony cues) adopt Traktor's cues with `track_id`
rewritten to the supplied canonical track id. -/
def merge_cue_points (harmony_cues traktor_cues : List CuePoint)
    (track_id : String) (strategy : CueMergeStrategy) : CueMergeResult :=
  if strategy = CueMergeStrategy.SmartMerge ∧ harmony_cues.isEmpty = false then
    { merged := harmony_cues, has_changes := false, added := 0, removed := 0 }
  else if strategy = CueMergeStrategy.Replace ∨ harmony_cues.isEmpty then
    let merged : List CuePoint := traktor_cues.map fun cue =>
      { id := cue.id
        track_id := track_id
        cue_type := cue.cue_type
        position_ms := cue.position_ms
        length_ms := cue.length_ms
        hotcue_slot := cue.hotcue_slot
        name := cue.name
        color := cue.color
        order := cue.order }
    let added := traktor_cues.length
    let removed := if strategy = CueMergeStrategy.Replace then harmony_cues.length else 0
    { merged := merged
      has_changes := decide (0 < added) || decide (0 < removed)
      added := added
      removed := removed }
  else
    { merged := harmony_cues, has_changes := false, added := 0, removed := 0 }

/-! ## Decimal strings

Models of the Rust numeric conversions the Traktor layer relies on:
`str::parse::<f64>` / `str::parse::<i32>` on plain decimal literals, integer
`Display`, and `format!("{:.6}", x)`. -/

/-- Is `c` one of `'0'`..`'9'`? -/
def isDigitChar (c : Char) : Bool := decide ('0' ≤ c ∧ c ≤ '9')

/-- Numeric value of a digit character. -/
def digitVal (c : Char) : Nat := c.toNat - 48

/-- Character for the digit `d < 10`. -/
def digitChar (d : Nat) : Char := Char.ofNat (48 + d)

/-- Value of a big-endian digit string. -/
def digitsVal (cs : List Char) : Nat := Nat.ofDigits 10 ((cs.map digitVal).reverse)

/-- Model of Rust unsigned-integer parsing on a digit string: requires at
least one character, all digits. -/
def parseNatDigits (cs : List Char) : Option Nat :=
  if cs ≠ [] ∧ cs.all isDigitChar then some (digitsVal cs) else none

/-- Unsigned body of a decimal literal: `digits`, `digits.digits`,
`digits.` or `.digits`. -/
def parseUnsignedDecimal (cs : List Char) : Option Rat :=
  let intPart := cs.takeWhile (· ≠ '.')
  match cs.dropWhile (· ≠ '.') with
  | [] => (parseNatDigits intPart).map (fun n => (Nat.cast n : Rat))
  | _ :: frac =>
    if intPart.all isDigitChar ∧ frac.all isDigitChar ∧ (intPart ≠ [] ∨ frac ≠ []) then
      some ((digitsVal intPart : Rat) + (digitsVal frac : Rat) / (10 : Rat) ^ frac.length)
    else none

/-- Model of `str::parse::<f64>` restricted to the finite decimal literals the
NML layer produces and consumes: optional sign, then an unsigned decimal
body.  The parsed value is exact (a `Rat`); `f64` rounding error is below
every tolerance stated in the spec. -/
def parseDecimal (s : String) : Option Rat :=
  if s.data.head? = some '-' then (parseUnsignedDecimal s.data.tail).map (fun q => -q)
  else if s.data.head? = some '+' then parseUnsignedDecimal s.data.tail
  else parseUnsignedDecimal s.data

/-- Model of `str::parse::<i32>`: optional sign, digits, `i32` range check. -/
def parseI32 (s : String) : Option Int :=
  let v? : Option Int :=
    if s.data.head? = some '-' then (parseNatDigits s.data.tail).map (fun n => -(Int.ofNat n))
    else if s.data.head? = some '+' then (parseNatDigits s.data.tail).map (fun n => Int.ofNat n)
    else (parseNatDigits s.data).map (fun n => Int.ofNat n)
  v?.bind (fun v => if -(2 ^ 31) ≤ v ∧ v < 2 ^ 31 then some v else none)

/-- Fuel-driven little-endian base-10 digit extraction; structurally
recursive so that concrete instances evaluate inside the kernel (it is proved
equal to `Nat.digits 10` below). -/
def digitsLE : Nat → Nat → List Nat
  | 0, _ => []
  | fuel + 1, n => if n = 0 then [] else n % 10 :: digitsLE fuel (n / 10)

/-- Little-endian base-10 digits of `m` (empty for `0`). -/
def natDigits10 (m : Nat) : List Nat := digitsLE m m

/-- Big-endian decimal digit characters of `m` (empty for `0`). -/
def natDigitChars (m : Nat) : List Char := ((natDigits10 m).map digitChar).reverse

/-- Decimal rendering of a natural number (Rust integer `Display`). -/
def natBaseStr (m : Nat) : List Char := if m = 0 then ['0'] else natDigitChars m

/-- Decimal rendering of an `Int` (Rust integer `Display` / `to_string`). -/
def intStr (k : Int) : String :=
  ⟨(if k < 0 then ['-'] else []) ++ natBaseStr k.natAbs⟩

/-- Exactly six fractional digits for `k < 10⁶`, zero-padded on the left. -/
def fracDigits6 (k : Nat) : List Char :=
  List.replicate (6 - (natDigitChars k).length) '0' ++ natDigitChars k

/-- Model of Rust `format!("{:.6}", x)`: fixed six decimal places.  The model
rounds half-up where Rust rounds the argument's binary value half-to-even;
either way the printed value is within `5·10⁻⁷` of the argument, which is all
the spec's `1e-3` tolerance arguments need. -/
def fmt6 (q : Rat) : String :=
  let n : Int := round (q * 1000000)
  ⟨(if n < 0 then ['-'] else []) ++
    natBaseStr (n.natAbs / 1000000) ++ '.' :: fracDigits6 (n.natAbs % 1000000)⟩

/-! ## Path translator (`libs/traktor/mapper.rs`)

The source works on OS paths through `std::path::Path`; the model fixes the
Unix path grammar (`'/'`-separated, which on the claims' domain of
forward-slash paths coincides with the Windows behaviour for the operations
used: `file_name`, `parent`, `split('/')`). -/

/-- Split a character list on `'/'` (model of `str::split('/')` and of
`Path` component decomposition; the empty input yields one empty segment,
as in Rust). -/
def splitOnSlash : List Char → List (List Char)
  | [] => [[]]
  | c :: rest =>
    match splitOnSlash rest with
    | [] => [[]]
    | seg :: segs => if c = '/' then [] :: seg :: segs else (c :: seg) :: segs

/-- Join character-list segments with a separator. -/
def joinWith (sep : List Char) : List (List Char) → List Char
  | [] => []
  | [x] => x
  | x :: xs => x ++ sep ++ joinWith sep xs

/-- Model of `Vec::join(sep)` on strings. -/
def joinStrings (sep : String) (parts : List String) : String :=
  ⟨joinWith sep.data (parts.map (fun t => t.data))⟩

/-- Non-empty `'/'`-separated segments of a path (model of
`split('/').filter(|s| !s.is_empty())`). -/
def pathSegs (s : String) : List String :=
  ((splitOnSlash s.data).filter (fun seg => seg ≠ [])).map (fun seg => (⟨seg⟩ : String))

/-- `std::path` component normalization at the end of a path: trailing `.`
segments are not components and are skipped (`Path::components`: occurrences
of `.` are normalized away except at the beginning of the path). -/
def stripDots (segs : List String) : List String :=
  (segs.reverse.dropWhile (fun seg => seg = ".")).reverse

/-- Model of `path.file_name().and_then(to_str).unwrap_or("")`: the final
component after skipping trailing `.` segments; `file_name` is `None` (here
`""`) when that component is `..`, when the path is a bare root, or when it
consists only of `.` segments. -/
def pathFileName (s : String) : String :=
  match (stripDots (pathSegs s)).getLast? with
  | some f => if f = ".." then "" else f
  | none => ""

/-- Model of `path.parent().and_then(to_str).unwrap_or("/")`: drop the final
component (after skipping trailing `.` segments) and render what precedes
it, again trimming trailing separators and `.` segments as
`Components::as_path` does.  A bare root or empty path has no parent
(`unwrap_or` gives `"/"`); a single-component path leaves just the root (or
`""` when relative).  The leading `.` of relative `./x` paths is the one
`Path` corner not modelled. -/
def pathDirStr (s : String) : String :=
  let segs := stripDots (pathSegs s)
  let pre : String := if s.data.head? = some '/' then "/" else ""
  match segs with
  | [] => if pre = "/" then "/" else (if pathSegs s = [] then "/" else "")
  | [_] => pre
  | _ =>
    match stripDots segs.dropLast with
    | [] => pre
    | rest => pre ++ joinStrings "/" rest

/-- Left-to-right, non-overlapping replacement of `"/:"` by `"/"` (model of
`dir.replace("/:", "/")`). -/
def replaceSlashColon : List Char → List Char
  | [] => []
  | [c] => [c]
  | c1 :: c2 :: rest =>
    if c1 = '/' ∧ c2 = ':' then '/' :: replaceSlashColon rest
    else c1 :: replaceSlashColon (c2 :: rest)

/-- Model of `trim_end_matches('/')`: drop every trailing `'/'`. -/
def trimEndSlashes (cs : List Char) : List Char :=
  (cs.reverse.dropWhile (· = '/')).reverse

/-- `map_traktor_path_to_system` from `libs/traktor/mapper.rs`: replace the
`/:` delimiters by `/`, trim the trailing slash, join with the filename and
prepend the volume when present (`PathBuf` normalization is the identity in
the Unix model). -/
def map_traktor_path_to_system (dir file : String) (volume : Option String) : String :=
  let system_dir : String := ⟨replaceSlashColon dir.data⟩
  let system_dir : String := ⟨trimEndSlashes system_dir.data⟩
  match volume with
  | some vol => vol ++ system_dir ++ "/" ++ file
  | none => system_dir ++ "/" ++ file

/-- `map_system_path_to_traktor` from `libs/traktor/mapper.rs`: detect a
two-character drive-letter volume prefix on the backslash-normalized path,
split off the filename, and rejoin the remaining directory segments with
`/:` delimiters (leading and trailing); root paths give directory `"/:"`.
Returns `(directory, file, volume)`. -/
def map_system_path_to_traktor (system_path : String) : String × String × String :=
  let normalized : List Char := system_path.data.map (fun c => if c = '\\' then '/' else c)
  let volume : String :=
    if 2 ≤ normalized.length ∧ normalized.get? 1 = some ':' then
      ⟨(normalized.take 2).map Char.toUpper⟩
    else ""
  let file := pathFileName system_path
  let dir_path := pathDirStr system_path
  if dir_path = "/" ∨ dir_path = "" then ("/:", file, volume)
  else
    let parts := pathSegs dir_path
    ("/:" ++ joinStrings "/:" parts ++ "/:", file, volume)

/-- A well-formed path piece: non-empty, no separator, no backslash, and
not one of the special components `.` and `..` that `std::path` normalizes
(`file_name` skips a trailing `.` and returns `None` after `..`). -/
def NiceSeg (seg : List Char) : Prop :=
  seg ≠ [] ∧ '/' ∉ seg ∧ '\\' ∉ seg ∧ seg ≠ ['.'] ∧ seg ≠ ['.', '.']

/-- Round-trip conclusion of claim C2 for a path `p`: the extracted volume is
empty and converting the `(directory, file, volume)` triple back (volume
passed either as absent or as the extracted string) reproduces `p`. -/
def PathRoundTripOK (p : String) : Prop :=
  (map_system_path_to_traktor p).2.2 = "" ∧
  map_traktor_path_to_system (map_system_path_to_traktor p).1
    (map_system_path_to_traktor p).2.1 none = p ∧
  map_traktor_path_to_system (map_system_path_to_traktor p).1
    (map_system_path_to_traktor p).2.1
    (some (map_system_path_to_traktor p).2.2) = p

/-! ## Traktor cue markers and the cue mapper
(`libs/traktor/nml_types.rs`, `libs/traktor/cue_mapper.rs`) -/

/-- Nested `GRID` element of a grid cue (`TraktorGrid`). -/
structure TraktorGrid where
  bpm : String
deriving DecidableEq

/-- A `CUE_V2` entry (`TraktorCue`); every field is a string as it comes from
XML. -/
structure TraktorCue where
  name : Option String
  displ_order : Option String
  cue_type : String
  start : String
  len : Option String
  repeats : Option String
  hotcue : Option String
  grid : Option TraktorGrid
deriving DecidableEq

/-- `map_traktor_cue_type`: codes "0"–"5"; anything else defaults to HotCue
(with a logged warning in the source). -/
def map_traktor_cue_type (type_str : String) : CueType :=
  if type_str = "0" then .HotCue
  else if type_str = "1" then .FadeIn
  else if type_str = "2" then .FadeOut
  else if type_str = "3" then .Load
  else if type_str = "4" then .Grid
  else if type_str = "5" then .Loop
  else .HotCue

/-- `map_harmony_cue_type`. -/
def map_harmony_cue_type : CueType → String
  | .HotCue => "0"
  | .FadeIn => "1"
  | .FadeOut => "2"
  | .Load => "3"
  | .Grid => "4"
  | .Loop => "5"

/-- Model of `generate_cue_id`.  The source feeds (track id, bit pattern of
the `f64` position, cue-type tag, hotcue slot or a `"none"` sentinel) to
`DefaultHasher` and formats the result as `"cue-{hash:x}"`.  The model keeps
the same inputs and the same determinism by encoding them injectively into
the id (hash collisions are idealized away; no claim depends on the digest
values themselves). -/
def generate_cue_id (track_id : String) (position_ms : Rat) (cue_type : CueType)
    (hotcue_slot : Option Int) : String :=
  "cue-" ++ track_id ++ "-" ++ intStr position_ms.num ++ "-" ++ ⟨natBaseStr position_ms.den⟩ ++
    "-" ++ cue_type.as_str ++ "-" ++
    (match hotcue_slot with
     | some slot => intStr slot
     | none => "none")

/-- `map_traktor_cue_to_harmony` from `libs/traktor/cue_mapper.rs`:
parse position (default 0 on failure), parse the hotcue slot, generate the
id, then fill the optional name (suppressing the `"n.n."` placeholder and
blank names), length (only when parseable and positive), display order, and
finally overwrite the name with `"Grid {bpm}"` for grid markers carrying a
nested grid element. -/
def map_traktor_cue_to_harmony (traktor_cue : TraktorCue) (track_id : String) : CuePoint :=
  let cue_type := map_traktor_cue_type traktor_cue.cue_type
  let position_ms := (parseDecimal traktor_cue.start).getD 0
  let hotcue_slot := traktor_cue.hotcue.bind parseI32
  let cue : CuePoint :=
    { id := generate_cue_id track_id position_ms cue_type hotcue_slot
      track_id := track_id
      cue_type := cue_type
      position_ms := position_ms
      length_ms := none
      hotcue_slot := hotcue_slot
      name := none
      color := none
      order := none }
  let cue :=
    match traktor_cue.name with
    | some name =>
      if name ≠ "n.n." ∧ (strTrim name).data.isEmpty = false then { cue with name := some name }
      else cue
    | none => cue
  let cue :=
    match traktor_cue.len with
    | some len_str =>
      match parseDecimal len_str with
      | some length => if 0 < length then { cue with length_ms := some length } else cue
      | none => cue
    | none => cue
  let cue :=
    match traktor_cue.displ_order with
    | some order_str =>
      match parseI32 order_str with
      | some order => { cue with order := some order }
      | none => cue
    | none => cue
  if cue_type = CueType.Grid then
    match traktor_cue.grid with
    | some grid => { cue with name := some ("Grid " ++ grid.bpm) }
    | none => cue
  else cue

/-- `map_traktor_cues_to_harmony`. -/
def map_traktor_cues_to_harmony (cue_data : Option (List TraktorCue)) (track_id : String) :
    List CuePoint :=
  match cue_data with
  | none => []
  | some cues => cues.map (fun cue => map_traktor_cue_to_harmony cue track_id)

/-- Name after the placeholder/blank suppression step of the forward cue
map: kept only when present, not `"n.n."`, and not whitespace-only. -/
def cueBaseName : Option String → Option String
  | some name =>
    if name ≠ "n.n." ∧ (strTrim name).data.isEmpty = false then some name else none
  | none => none

/-- Model of `name.strip_prefix("Grid ")`. -/
def stripGrid (name : String) : Option String :=
  match name.data with
  | 'G' :: 'r' :: 'i' :: 'd' :: ' ' :: rest => some ⟨rest⟩
  | _ => none

/-- `map_harmony_cue_to_traktor` from `libs/traktor/cue_mapper.rs`: format
position and length with six decimal places, stringify slot and order, keep
the name, and for grid cues reconstruct the nested grid element by stripping
the `"Grid "` name marker. -/
def map_harmony_cue_to_traktor (cue : CuePoint) : TraktorCue :=
  let traktor : TraktorCue :=
    { cue_type := map_harmony_cue_type cue.cue_type
      start := fmt6 cue.position_ms
      len := cue.length_ms.map fmt6
      repeats := some "-1"
      hotcue := cue.hotcue_slot.map intStr
      name := cue.name
      displ_order := cue.order.map intStr
      grid := none }
  if cue.cue_type = CueType.Grid then
    match cue.name with
    | some name =>
      match stripGrid name with
      | some bpm_str => { traktor with grid := some { bpm := bpm_str } }
      | none => traktor
    | none => traktor
  else traktor

/-- The round-trip conclusion of the amended claim C3 for a Traktor cue `t`
round-tripped through the canonical form under track id `tid`, where `p` is
the parsed start position: type code, hotcue slot and display order are
reproduced exactly; the name is reproduced exactly except for grid markers
with a nested grid element, whose name becomes `"Grid {bpm}"` while the grid
element itself is reconstructed exactly; position and length are reproduced
within the `1e-3` tolerance. -/
def CueRoundTripOK (t : TraktorCue) (tid : String) (p : Rat) : Prop :=
  let rt := map_harmony_cue_to_traktor (map_traktor_cue_to_harmony t tid)
  rt.cue_type = t.cue_type ∧
  rt.hotcue = t.hotcue ∧
  rt.displ_order = t.displ_order ∧
  (if t.cue_type = "4" then
      match t.grid with
      | some g => rt.name = some ("Grid " ++ g.bpm) ∧ rt.grid = some g
      | none => rt.name = t.name
    else rt.name = t.name) ∧
  (∃ p', parseDecimal rt.start = some p' ∧ |p - p'| < 1 / 1000) ∧
  (match t.len with
   | none => rt.len = none
   | some s => ∃ l l', parseDecimal s = some l ∧ rt.len = some (fmt6 l) ∧
       parseDecimal (fmt6 l) = some l' ∧ |l - l'| < 1 / 1000)

/-- Grid marker showing that the original claim C3's "name is reproduced
exactly" fails: its name is overwritten by the `"Grid {bpm}"` encoding. -/
def c3GridCue : TraktorCue :=
  { name := some "AutoGrid", displ_order := some "1", cue_type := "4"
    start := "12345.678900", len := none, repeats := some "-1"
    hotcue := none, grid := some { bpm := "128.00" } }

/-! ## Sample inputs for the merge-matrix and cue-merge scenarios -/

/-- Canonical track of the §8 merge matrix: artist and bpm empty, genre set. -/
def c4Harmony : Track :=
  { id := "track-1", path := "/music/test.mp3", title := "Test Track"
    artist := none, album := none, genre := some "House", year := none
    duration := 180000, bitrate := none, comment := none, bpm := none
    initial_key := none, rating := none, label := none, waveform_peaks := none
    added_at := some 1234567890, url := none }

/-- Traktor-side track of the §8 merge matrix: artist "DJ X", bpm 128,
genre "Techno"; its identity fields are deliberately different so that their
exclusion from the merge is observable. -/
def c4Traktor : Track :=
  { id := "ignored", path := "/ignored/path.mp3", title := "Test Track"
    artist := some "DJ X", album := none, genre := some "Techno", year := none
    duration := 999999, bitrate := none, comment := none, bpm := some 128
    initial_key := none, rating := none, label := none, waveform_peaks := none
    added_at := none, url := none }

/-- The two canonical cues of the §8 cue-merge scenario. -/
def c5HarmonyCues : List CuePoint :=
  [ { id := "cue-1", track_id := "track-1", cue_type := .HotCue, position_ms := 1000
      length_ms := none, hotcue_slot := some 0, name := some "Drop", color := none, order := none },
    { id := "cue-2", track_id := "track-1", cue_type := .Loop, position_ms := 30000
      length_ms := some 8000, hotcue_slot := none, name := some "Outro", color := none, order := none } ]

/-- The single Traktor-side cue of the §8 cue-merge scenario. -/
def c5TraktorCues : List CuePoint :=
  [ { id := "traktor-cue-1", track_id := "wrong-id", cue_type := .HotCue, position_ms := 2000
      length_ms := none, hotcue_slot := some 1, name := some "Build", color := none, order := none } ]

/-! ## SHA-256 and track identity (`libs/track.rs`)

`Track::generate_id` hashes the UTF-8 bytes of the lowercased path with
SHA-256 and prints the digest in lowercase hex.  The hash is implemented
here from the FIPS 180-4 specification with structurally recursive bitwise
operations so that concrete digests evaluate inside the kernel. -/

/-- `2³²`, the word modulus of SHA-256. -/
def M32 : Nat := 4294967296

/-- Bitwise XOR on the low `fuel` bits. -/
def bitsXor : Nat → Nat → Nat → Nat
  | 0, _, _ => 0
  | f+1, a, b => ((a + b) % 2) + 2 * bitsXor f (a / 2) (b / 2)

/-- Bitwise AND on the low `fuel` bits. -/
def bitsAnd : Nat → Nat → Nat → Nat
  | 0, _, _ => 0
  | f+1, a, b => (a % 2) * (b % 2) + 2 * bitsAnd f (a / 2) (b / 2)

/-- 32-bit XOR. -/
def bxor (a b : Nat) : Nat := bitsXor 32 a b

/-- 32-bit AND. -/
def band (a b : Nat) : Nat := bitsAnd 32 a b

/-- 32-bit complement. -/
def bnot (a : Nat) : Nat := 4294967295 - a % M32

/-- 32-bit rotate right by `n`. -/
def rotr (n a : Nat) : Nat := (a % M32 / 2 ^ n + (a % M32 % 2 ^ n) * 2 ^ (32 - n)) % M32

/-- 32-bit shift right by `n`. -/
def shr (n a : Nat) : Nat := a % M32 / 2 ^ n

/-- SHA-256 `Σ₀`. -/
def bigSigma0 (x : Nat) : Nat := bxor (bxor (rotr 2 x) (rotr 13 x)) (rotr 22 x)

/-- SHA-256 `Σ₁`. -/
def bigSigma1 (x : Nat) : Nat := bxor (bxor (rotr 6 x) (rotr 11 x)) (rotr 25 x)

/-- SHA-256 `σ₀`. -/
def smallSigma0 (x : Nat) : Nat := bxor (bxor (rotr 7 x) (rotr 18 x)) (shr 3 x)

/-- SHA-256 `σ₁`. -/
def smallSigma1 (x : Nat) : Nat := bxor (bxor (rotr 17 x) (rotr 19 x)) (shr 10 x)

/-- SHA-256 `Ch`. -/
def chFn (x y z : Nat) : Nat := bxor (band x y) (band (bnot x) z)

/-- SHA-256 `Maj`. -/
def majFn (x y z : Nat) : Nat := bxor (bxor (band x y) (band x z)) (band y z)

/-- The 64 SHA-256 round constants (the fractional parts of the cube
roots of the first 64 primes, here written in decimal). -/
def K256 : List Nat :=
  [1116352408, 1899447441, 3049323471, 3921009573, 961987163,
   1508970993, 2453635748, 2870763221, 3624381080, 310598401,
   607225278, 1426881987, 1925078388, 2162078206, 2614888103,
   3248222580, 3835390401, 4022224774, 264347078, 604807628,
   770255983, 1249150122, 1555081692, 1996064986, 2554220882,
   2821834349, 2952996808, 3210313671, 3336571891, 3584528711,
   113926993, 338241895, 666307205, 773529912, 1294757372,
   1396182291, 1695183700, 1986661051, 2177026350, 2456956037,
   2730485921, 2820302411, 3259730800, 3345764771, 3516065817,
   3600352804, 4094571909, 275423344, 430227734, 506948616,
   659060556, 883997877, 958139571, 1322822218, 1537002063,
   1747873779, 1955562222, 2024104815, 2227730452, 2361852424,
   2428436474, 2756734187, 3204031479, 3329325298]

/-- The SHA-256 initial hash state (decimal). -/
def sha256Init : List Nat :=
  [1779033703, 3144134277, 1013904242, 2773480762,
   1359893119, 2600822924, 528734635, 1541459225]

/-- `k` bytes of `n`, big-endian. -/
def toBytesBE : Nat → Nat → List Nat
  | 0, _ => []
  | k+1, n => toBytesBE k (n / 256) ++ [n % 256]

/-- SHA-256 padding: `0x80`, zeros to 56 mod 64, 8-byte big-endian bit length. -/
def padMsg (ms : List Nat) : List Nat :=
  ms ++ [128] ++ List.replicate ((120 - (ms.length + 1) % 64) % 64) 0 ++
    toBytesBE 8 (ms.length * 8)

/-- Pack big-endian bytes into 32-bit words. -/
def bytesToWords : List Nat → List Nat
  | a :: b :: c :: d :: rest => (((a * 256 + b) * 256 + c) * 256 + d) :: bytesToWords rest
  | _ => []

/-- Chunk a word list into 16-word blocks (`fuel` bounds the recursion). -/
def blocksOf : Nat → List Nat → List (List Nat)
  | _, [] => []
  | 0, _ => []
  | f+1, ws => ws.take 16 :: blocksOf f (ws.drop 16)

/-- Extend a 16-word block by `fuel` schedule words. -/
def extendW : Nat → List Nat → List Nat
  | 0, ws => ws
  | f+1, ws =>
    extendW f (ws ++ [(smallSigma1 (ws.getD (ws.length - 2) 0) + ws.getD (ws.length - 7) 0 +
      smallSigma0 (ws.getD (ws.length - 15) 0) + ws.getD (ws.length - 16) 0) % M32])

/-- One SHA-256 compression round on the state `[a,b,c,d,e,f,g,h]`. -/
def roundFn : List Nat → Nat → Nat → List Nat
  | [a, b, c, d, e, f, g, h], k, w =>
    ((h + bigSigma1 e + chFn e f g + k + w) % M32 + (bigSigma0 a + majFn a b c) % M32) % M32 ::
      a :: b :: c :: ((d + (h + bigSigma1 e + chFn e f g + k + w) % M32) % M32) :: e :: f :: [g]
  | st, _, _ => st

/-- Fold the 64 rounds over the zipped constants and schedule. -/
def compressLoop : List (Nat × Nat) → List Nat → List Nat
  | [], st => st
  | (k, w) :: rest, st => compressLoop rest (roundFn st k w)

/-- Process one 16-word block: compress, then add into the running state. -/
def processBlock (h : List Nat) (block : List Nat) : List Nat :=
  (h.zip (compressLoop (K256.zip (extendW 48 block)) h)).map (fun p => (p.1 + p.2) % M32)

/-- The eight 32-bit words of the SHA-256 digest of a byte list. -/
def sha256Words (ms : List Nat) : List Nat :=
  (blocksOf (bytesToWords (padMsg ms)).length (bytesToWords (padMsg ms))).foldl
    processBlock sha256Init

/-- Lowercase hex digit. -/
def hexDigit (n : Nat) : Char := if n < 10 then Char.ofNat (48 + n) else Char.ofNat (87 + n)

/-- `k` lowercase hex digits of `n`, big-endian, zero-padded. -/
def hexWord8 : Nat → Nat → List Char
  | 0, _ => []
  | k+1, n => hexWord8 k (n / 16) ++ [hexDigit (n % 16)]

/-- Lowercase-hex SHA-256 digest (model of `format!("{:x}", hasher.finalize())`). -/
def sha256hex (ms : List Nat) : String :=
  ⟨(sha256Words ms).foldr (fun w acc => hexWord8 8 w ++ acc) []⟩

/-- ASCII lowercase of one character (model of `char::to_lowercase` on the
ASCII range the claims quantify over). -/
def charLower (c : Char) : Char :=
  if 65 ≤ c.toNat ∧ c.toNat ≤ 90 then Char.ofNat (c.toNat + 32) else c

/-- Model of `str::to_lowercase`. -/
def strToLower (s : String) : String := ⟨s.data.map charLower⟩

/-- UTF-8 encoding of one character. -/
def utf8Char (c : Char) : List Nat :=
  if c.toNat < 128 then [c.toNat]
  else if c.toNat < 2048 then [192 + c.toNat / 64, 128 + c.toNat % 64]
  else if c.toNat < 65536 then
    [224 + c.toNat / 4096, 128 + c.toNat / 64 % 64, 128 + c.toNat % 64]
  else [240 + c.toNat / 262144, 128 + c.toNat / 4096 % 64,
    128 + c.toNat / 64 % 64, 128 + c.toNat % 64]

/-- Model of `str::as_bytes`: the UTF-8 byte sequence. -/
def strBytes (s : String) : List Nat :=
  s.data.foldr (fun c acc => utf8Char c ++ acc) []

/-- `Track::generate_id` from `libs/track.rs`: the lowercase-hex SHA-256
digest of the UTF-8 bytes of the lowercased path. -/
def Track.generate_id (path : String) : String :=
  sha256hex (strBytes (strToLower path))

/-! ## NML entry types and the track mapper
(`libs/traktor/nml_types.rs`, `libs/traktor/mapper.rs`) -/

/-- `TraktorLocation`: the `LOCATION` element of an entry. -/
structure TraktorLocation where
  dir : String
  file : String
  volume : Option String
  volumeid : Option String
deriving DecidableEq

/-- `TraktorAlbum`: the `ALBUM` element. -/
structure TraktorAlbum where
  title : Option String
  track : Option String
  of_tracks : Option String
deriving DecidableEq

/-- `TraktorModificationInfo`. -/
structure TraktorModificationInfo where
  author_type : Option String
deriving DecidableEq

/-- `TraktorInfo`: the `INFO` element; every field a string from XML. -/
structure TraktorInfo where
  bitrate : Option String
  genre : Option String
  label : Option String
  comment : Option String
  coverartid : Option String
  key : Option String
  playtime : Option String
  playtime_float : Option String
  ranking : Option String
  import_date : Option String
  release_date : Option String
  last_played : Option String
  playcount : Option String
  flags : Option String
  filesize : Option String
  color : Option String
deriving DecidableEq

/-- `TraktorTempo`: the `TEMPO` element. -/
structure TraktorTempo where
  bpm : String
  bpm_quality : Option String
deriving DecidableEq

/-- `TraktorLoudness`. -/
structure TraktorLoudness where
  peak_db : Option String
  perceived_db : Option String
  analyzed_db : Option String
deriving DecidableEq

/-- `TraktorMusicalKey`. -/
structure TraktorMusicalKey where
  value : String
deriving DecidableEq

/-- `TraktorPrimaryKey`. -/
structure TraktorPrimaryKey where
  key_type : Option String
  key : Option String
deriving DecidableEq

/-- `TraktorEntry`: one `ENTRY` element of the collection. -/
structure TraktorEntry where
  modified_date : Option String
  modified_time : Option String
  audio_id : Option String
  title : Option String
  artist : Option String
  location : TraktorLocation
  album : Option TraktorAlbum
  modification_info : Option TraktorModificationInfo
  info : Option TraktorInfo
  tempo : Option TraktorTempo
  loudness : Option TraktorLoudness
  musical_key : Option TraktorMusicalKey
  cue_v2 : List TraktorCue
  primarykey : Option TraktorPrimaryKey
deriving DecidableEq

/-- Floor of a nonnegative rational as an `Int`. -/
def ratFloorNN (q : Rat) : Int := Int.ofNat (q.num.toNat / q.den)

/-- Rust `f64::round`: round half away from zero. -/
def rustRound (q : Rat) : Int :=
  if 0 ≤ q then ratFloorNN (q + 1 / 2) else -(ratFloorNN (-q + 1 / 2))

/-- Truncation toward zero (Rust `as i64` on the in-range values that arise
here). -/
def ratTruncInt (q : Rat) : Int :=
  if 0 ≤ q then Int.ofNat (q.num.toNat / q.den) else -(Int.ofNat ((-q.num).toNat / q.den))

/-- Model of `str::parse::<u32>`: optional `+`, digits, `u32` range check. -/
def parseU32 (s : String) : Option Nat :=
  (if s.data.head? = some '+' then parseNatDigits s.data.tail
   else parseNatDigits s.data).bind
    (fun v => if v < 2 ^ 32 then some v else none)

/-- `map_traktor_rating` from `libs/traktor/mapper.rs`: parse the 0–255
ranking and round `v / 51`; unparseable or absent gives 0. -/
def map_traktor_rating (ranking : Option String) : Int :=
  match ranking.bind (fun r => parseI32 r) with
  | some v => rustRound ((v : Rat) / 51)
  | none => 0

/-- `map_traktor_bpm`: parse the float and round to an integer. -/
def map_traktor_bpm (bpm : Option String) : Option Int :=
  (bpm.bind (fun b => parseDecimal b)).map (fun v => rustRound v)

/-- Gregorian leap-year test. -/
def isLeapYear (y : Int) : Bool :=
  y % 4 = 0 ∧ (y % 100 ≠ 0 ∨ y % 400 = 0)

/-- Days in a month of a given year. -/
def daysInMonth (y : Int) (m : Nat) : Nat :=
  if m = 2 then (if isLeapYear y then 29 else 28)
  else if m = 4 ∨ m = 6 ∨ m = 9 ∨ m = 11 then 30 else 31

/-- Days from the Unix epoch to a civil date (Howard Hinnant's
`days_from_civil`, the algorithm underlying `chrono`'s day arithmetic). -/
def daysFromCivil (y : Int) (m d : Nat) : Int :=
  let yAdj : Int := if m ≤ 2 then y - 1 else y
  let era : Int := Int.fdiv yAdj 400
  let yoe : Nat := (yAdj - era * 400).toNat
  let doy : Nat := (153 * (if 2 < m then m - 3 else m + 9) + 2) / 5 + d - 1
  let doe : Nat := yoe * 365 + yoe / 4 - yoe / 100 + doy
  era * 146097 + (doe : Int) - 719468

/-- `parse_traktor_date` from `libs/traktor/mapper.rs`: split on `'/'` into
exactly three parts, parse year/month/day, validate the civil date (the
model idealizes `chrono`'s ±262000-year range away) and return midnight UTC
in Unix milliseconds. -/
def parse_traktor_date (date_str : Option String) : Option Int :=
  date_str.bind (fun s =>
    let parts := splitOnSlash s.data
    if parts.length = 3 then
      (parseI32 ⟨parts.getD 0 []⟩).bind (fun year =>
      (parseU32 ⟨parts.getD 1 []⟩).bind (fun month =>
      (parseU32 ⟨parts.getD 2 []⟩).bind (fun day =>
      if 1 ≤ month ∧ month ≤ 12 ∧ 1 ≤ day ∧ day ≤ daysInMonth year month then
        some (daysFromCivil year month day * 86400000)
      else none)))
    else none)

/-- `map_traktor_entry_to_track` from `libs/traktor/mapper.rs`. -/
def map_traktor_entry_to_track (entry : TraktorEntry) : Track :=
  let path := map_traktor_path_to_system entry.location.dir entry.location.file
    entry.location.volume
  let rating : Option TrackRating :=
    (entry.info.bind (fun i => i.ranking)).bind (fun r =>
      let rating_value := map_traktor_rating (some r)
      if 0 < rating_value then
        some { rating := rating_value, source := some "traktor" }
      else none)
  let year : Option Int :=
    (entry.info.bind (fun i => i.release_date)).bind (fun date_str =>
      ((splitOnSlash date_str.data).head?).bind (fun y => parseI32 ⟨y⟩))
  let bitrate : Option Int :=
    ((entry.info.bind (fun i => i.bitrate)).bind (fun b => parseI32 b)).map
      (fun bps => Int.tdiv bps 1000)
  let duration : Int :=
    (((entry.info.bind (fun i =>
        match i.playtime_float with
        | some p => some p
        | none => i.playtime)).bind
      (fun p => parseDecimal p)).map
      (fun seconds => ratTruncInt (seconds * 1000))).getD 0
  { id := Track.generate_id path
    path := path
    title := entry.title.getD entry.location.file
    artist := entry.artist
    album := entry.album.bind (fun a => a.title)
    genre := entry.info.bind (fun i => i.genre)
    year := year
    duration := duration
    bitrate := bitrate
    comment := entry.info.bind (fun i => i.comment)
    bpm := entry.tempo.bind (fun t => map_traktor_bpm (some t.bpm))
    initial_key := entry.info.bind (fun i => i.key)
    rating := rating
    label := entry.info.bind (fun i => i.label)
    waveform_peaks := none
    added_at := parse_traktor_date (entry.info.bind (fun i => i.import_date))
    url := none }

/-- Concrete entry used to witness the claims about the entry mapper. -/
def c7Entry : TraktorEntry :=
  { modified_date := none, modified_time := none, audio_id := none
    title := some "Test", artist := some "A"
    location := { dir := "/:Music/:", file := "Test.MP3", volume := none, volumeid := none }
    album := none, modification_info := none, info := none, tempo := none
    loudness := none, musical_key := none, cue_v2 := [], primarykey := none }

/-! ## Playlist flattening (`libs/traktor/playlist_sync.rs`) -/

/-- `ImportedPlaylist` from `libs/traktor/playlist_sync.rs`. -/
structure ImportedPlaylist where
  id : String
  name : String
  track_paths : List String
  folder_path : Option String
deriving DecidableEq

/-- `FolderTreeNode`: a folder/playlist tree node. -/
inductive FolderTreeNode where
  | mk (name : String) (is_folder : Bool) (playlist : Option ImportedPlaylist)
      (children : List FolderTreeNode)

mutual

/-- `flatten_playlist_tree` from `libs/traktor/playlist_sync.rs`: build the
current path from the parent path and the node name, emit the node's
playlist (when it is a playlist node) with `folder_path` set to the parent
path (or `"/"` at the root), then recurse into the children in order. -/
def flatten_playlist_tree : FolderTreeNode → Option String → List ImportedPlaylist
  | .mk name is_folder playlist children, parent_path =>
    let current_path : String :=
      match parent_path with
      | some parent => parent ++ "/" ++ name
      | none => "/" ++ name
    (if is_folder = false then
      match playlist with
      | some pl =>
        [{ pl with folder_path :=
            match parent_path with
            | some p => some p
            | none => some "/" }]
      | none => []
    else []) ++ flattenChildren children current_path

/-- The `for child in &tree.children` loop of `flatten_playlist_tree`. -/
def flattenChildren : List FolderTreeNode → String → List ImportedPlaylist
  | [], _ => []
  | c :: cs, path => flatten_playlist_tree c (some path) ++ flattenChildren cs path

end

/-- The path spelled by a chain of ancestor folder names, as the spec words
it: their concatenation from the root, `"/"`-delimited and `"/"`-prefixed. -/
def ancestorPath : List String → String
  | [] => "/"
  | n :: ns => "/" ++ joinStrings "/" (n :: ns)

/-- The `parent_path` argument corresponding to a chain of ancestor names
(`none` at the root). -/
def parentOpt : List String → Option String
  | [] => none
  | n :: ns => some (ancestorPath (n :: ns))

mutual

/-- Spec-side flattening, transcribed from the spec's words rather than the
source: walk the tree depth-first in document order carrying the list of
ancestor folder names, and give each playlist a `folder_path` spelled from
its ancestor names (so a root-level playlist gets the root's own path). -/
def specFlatten : List String → FolderTreeNode → List ImportedPlaylist
  | ancestors, .mk name is_folder playlist children =>
    (if is_folder = false then
      match playlist with
      | some pl => [{ pl with folder_path := some (ancestorPath ancestors) }]
      | none => []
    else []) ++ specFlattenList (ancestors ++ [name]) children

/-- Depth-first, left-to-right traversal of a sibling list (spec side). -/
def specFlattenList : List String → List FolderTreeNode → List ImportedPlaylist
  | _, [] => []
  | ancestors, c :: cs => specFlatten ancestors c ++ specFlattenList ancestors cs

end

/-- The nested playlist of the §8 flattening scenario. -/
def c9DeepHouse : ImportedPlaylist :=
  { id := "pl-1", name := "Deep House", track_paths := ["/music/dh.mp3"], folder_path := none }

/-- The root-level playlist of the §8 flattening scenario. -/
def c9Techno : ImportedPlaylist :=
  { id := "pl-2", name := "Techno", track_paths := [], folder_path := none }

/-- The §8 scenario tree: root `$ROOT` containing folder `House` (holding
playlist `Deep House`) and sibling playlist `Techno`. -/
def c9Tree : FolderTreeNode :=
  .mk "$ROOT" true none
    [.mk "House" true none [.mk "Deep House" false (some c9DeepHouse) []],
     .mk "Techno" false (some c9Techno) []]

/-! ## Remaining NML document types (`libs/traktor/nml_types.rs`) -/

/-- `TraktorHead`. -/
structure TraktorHead where
  company : String
  program : String
deriving DecidableEq

/-- `TraktorCollection`. -/
structure TraktorCollection where
  entries : String
  entry : List TraktorEntry
deriving DecidableEq

/-- `TraktorPrimaryKey`-bearing playlist entry (`TraktorPlaylistEntry`). -/
structure TraktorPlaylistEntry where
  primarykey : TraktorPrimaryKey
deriving DecidableEq

/-- `TraktorPlaylistData`: the `PLAYLIST` element of a playlist node. -/
structure TraktorPlaylistData where
  entries : String
  playlist_type : String
  uuid : String
  entry : List TraktorPlaylistEntry
deriving DecidableEq

mutual

/-- `TraktorNode`: a `NODE` of the playlist tree (`TYPE` is `"FOLDER"` or
`"PLAYLIST"`). -/
inductive TraktorNode where
  | mk (node_type : String) (name : String) (subnodes : Option TraktorSubnodes)
      (playlist : Option TraktorPlaylistData)

/-- `TraktorSubnodes`: the `SUBNODES` element. -/
inductive TraktorSubnodes where
  | mk (count : Option String) (nodes : List TraktorNode)

end

/-- `TraktorPlaylists`: the `PLAYLISTS` element. -/
structure TraktorPlaylists where
  node : TraktorNode

/-- `TraktorCriteria` (`attribute` is a Lean keyword, hence `attrib`). -/
structure TraktorCriteria where
  attrib : String
  direction : String
deriving DecidableEq

/-- `TraktorSortingInfo`. -/
structure TraktorSortingInfo where
  path : String
  criteria : Option TraktorCriteria
deriving DecidableEq

/-- `TraktorIndexing`. -/
structure TraktorIndexing where
  sorting_info : List TraktorSortingInfo
deriving DecidableEq

/-- The `NML` root element. -/
structure NML where
  version : String
  head : TraktorHead
  collection : TraktorCollection
  playlists : Option TraktorPlaylists
  indexing : Option TraktorIndexing

/-- `TraktorNML`: the parsed document. -/
structure TraktorNML where
  nml : NML

/-! ## Playlist mapping (`libs/traktor/playlist_sync.rs`, continued) -/

/-- `Playlist` from `libs/playlist.rs`. -/
structure Playlist where
  id : String
  name : String
  folder_id : Option String
  tracks : List Track
deriving DecidableEq

/-- Index of the start of the last `"/:"` occurrence (model of
`str::rfind("/:")`). -/
def rfindSC : List Char → Option Nat
  | [] => none
  | c1 :: rest =>
    match rfindSC rest with
    | some i => some (i + 1)
    | none =>
      match rest with
      | c2 :: _ => if c1 = '/' ∧ c2 = ':' then some 0 else none
      | [] => none

/-- `map_traktor_playlist_key_to_path` from `libs/traktor/playlist_sync.rs`:
split off a drive-letter volume prefix, cut the key at the last `"/:"` into
directory (delimiter included) and file, and convert with
`map_traktor_path_to_system`. -/
def map_traktor_playlist_key_to_path (key : String) : String :=
  let volume : Option String :=
    if 2 ≤ key.data.length ∧ key.data.get? 1 = some ':' then some ⟨key.data.take 2⟩ else none
  let traktor_path : List Char :=
    if 2 ≤ key.data.length ∧ key.data.get? 1 = some ':' then key.data.drop 2 else key.data
  match rfindSC traktor_path with
  | some idx =>
    map_traktor_path_to_system ⟨traktor_path.take (idx + 2)⟩ ⟨traktor_path.drop (idx + 2)⟩ volume
  | none => map_traktor_path_to_system "" ⟨traktor_path⟩ volume

/-- Model of `generate_playlist_id`.  The source feeds the name to
`DefaultHasher` and formats the result as `"playlist-{hash:x}"`; the model
keeps the same inputs and determinism by embedding the name itself
(hash collisions are idealized away; no claim depends on digest values). -/
def generate_playlist_id (name : String) : String := "playlist-" ++ name

/-- Accessor for the `TraktorNode` constructor. -/
def TraktorNode.name : TraktorNode → String
  | .mk _ n _ _ => n

/-- `map_traktor_playlist_to_harmony`: uuid, name, and the system paths of
the entries carrying a `PRIMARYKEY.KEY` (entries without one are skipped
with a warning). -/
def map_traktor_playlist_to_harmony : TraktorNode → ImportedPlaylist
  | .mk _ name _ playlist =>
    match playlist with
    | some pd =>
      { id := pd.uuid, name := name
        track_paths := pd.entry.filterMap
          (fun e => e.primarykey.key.map (fun k => map_traktor_playlist_key_to_path k))
        folder_path := none }
    | none =>
      { id := generate_playlist_id name, name := name, track_paths := [], folder_path := none }

mutual

/-- `map_traktor_node_to_folder_tree`: `"PLAYLIST"` nodes become playlist
leaves, everything else a folder over its mapped subnodes. -/
def map_traktor_node_to_folder_tree : TraktorNode → FolderTreeNode
  | .mk node_type name subnodes playlist =>
    if node_type = "PLAYLIST" then
      .mk name false (some (map_traktor_playlist_to_harmony (.mk node_type name subnodes playlist)))
        []
    else
      .mk name true none
        (match subnodes with
         | some (.mk _ nodes) => mapSubnodeList nodes
         | none => [])

/-- The subnode loop of `map_traktor_node_to_folder_tree`. -/
def mapSubnodeList : List TraktorNode → List FolderTreeNode
  | [] => []
  | n :: ns => map_traktor_node_to_folder_tree n :: mapSubnodeList ns

end

/-- `extract_playlists_from_traktor`: map to a tree, then flatten. -/
def extract_playlists_from_traktor (root_node : TraktorNode) : List ImportedPlaylist :=
  flatten_playlist_tree (map_traktor_node_to_folder_tree root_node) none

/-- `convert_to_harmony_playlist`: the `folder_path` becomes `folder_id`,
tracks are linked separately. -/
def convert_to_harmony_playlist (imported : ImportedPlaylist) : Playlist :=
  { id := imported.id, name := imported.name, folder_id := imported.folder_path, tracks := [] }

/-! ## The canonical store (`libs/database.rs`)

The SQLite-backed store is modelled as lists of table rows in rowid order;
each operation mirrors the SQL statement it embeds.  The random
`playlistTrack.id` uuid is omitted (nothing reads it). -/

/-- A `playlist` table row. -/
structure PlaylistRow where
  id : String
  name : String
  folder_id : Option String
deriving DecidableEq

/-- A `playlistTrack` table row (without its random uuid primary key). -/
structure PlaylistTrackRow where
  playlist_id : String
  track_id : String
  order : Int
deriving DecidableEq

/-- The canonical store: `track`, `cuePoint`, `playlist` and
`playlistTrack` tables. -/
structure Store where
  tracks : List Track
  cues : List CuePoint
  playlists : List PlaylistRow
  playlist_tracks : List PlaylistTrackRow
deriving DecidableEq

/-- `get_all_tracks`: `SELECT ... FROM track`. -/
def get_all_tracks (s : Store) : List Track := s.tracks

/-- One `INSERT ... ON CONFLICT(id) DO UPDATE` of `insert_tracks`: on an id
conflict every column is overwritten from the new row EXCEPT `path` and
`addedAt` (absent from the update list). -/
def upsertTrack (rows : List Track) (t : Track) : List Track :=
  if rows.any (fun r => r.id = t.id) then
    rows.map (fun r => if r.id = t.id then { t with path := r.path, added_at := r.added_at } else r)
  else rows ++ [t]

/-- `insert_tracks`. -/
def insert_tracks (s : Store) (ts : List Track) : Store :=
  { s with tracks := ts.foldl upsertTrack s.tracks }

/-- `update_track`: `UPDATE track SET` every column except `id` and
`addedAt` `WHERE id = ?`. -/
def update_track (s : Store) (t : Track) : Store :=
  { s with tracks :=
      s.tracks.map (fun r => if r.id = t.id then { t with added_at := r.added_at } else r) }

/-- Stable insertion by ascending `positionMs` (model of `ORDER BY
positionMs` on the filtered rows). -/
def insertByPos (c : CuePoint) : List CuePoint → List CuePoint
  | [] => [c]
  | x :: xs => if c.position_ms < x.position_ms then c :: x :: xs else x :: insertByPos c xs

/-- Sort cue rows by ascending position. -/
def sortByPos (cs : List CuePoint) : List CuePoint := cs.foldr insertByPos []

/-- `get_cue_points_for_track`: `SELECT ... WHERE trackId = ? ORDER BY
positionMs`. -/
def get_cue_points_for_track (s : Store) (track_id : String) : List CuePoint :=
  sortByPos (s.cues.filter (fun c => c.track_id = track_id))

/-- One `INSERT ... ON CONFLICT(id) DO UPDATE` of `save_cue_points`: an id
conflict overwrites every column. -/
def upsertCue (rows : List CuePoint) (c : CuePoint) : List CuePoint :=
  if rows.any (fun r => r.id = c.id) then rows.map (fun r => if r.id = c.id then c else r)
  else rows ++ [c]

/-- `save_cue_points`. -/
def save_cue_points (s : Store) (cs : List CuePoint) : Store :=
  { s with cues := cs.foldl upsertCue s.cues }

/-- `get_playlist_by_id` as used by the sync command: the row, with its
tracks joined through `playlistTrack` (the caller only tests presence). -/
def get_playlist_by_id (s : Store) (pid : String) : Option PlaylistRow :=
  s.playlists.find? (fun p => p.id = pid)

/-- `create_playlist`: plain `INSERT INTO playlist`. -/
def create_playlist (s : Store) (p : Playlist) : Store :=
  { s with playlists := s.playlists ++ [{ id := p.id, name := p.name, folder_id := p.folder_id }] }

/-- `update_playlist`: `UPDATE playlist SET name, folderId WHERE id`. -/
def update_playlist (s : Store) (p : Playlist) : Store :=
  { s with playlists := s.playlists.map (fun r =>
      if r.id = p.id then { r with name := p.name, folder_id := p.folder_id } else r) }

/-- `set_playlist_tracks`: delete the playlist's `playlistTrack` rows, then
insert one row per track id with its position index as `order`. -/
def set_playlist_tracks (s : Store) (pid : String) (track_ids : List String) : Store :=
  let kept := s.playlist_tracks.filter (fun pt => pt.playlist_id ≠ pid)
  let added : List PlaylistTrackRow := ((List.range track_ids.length).zip track_ids).map
    (fun p => { playlist_id := pid, track_id := p.2, order := (p.1 : Int) })
  { s with playlist_tracks := kept ++ added }

/-! ## The sync command (`commands/traktor.rs`) -/

/-- `EnhancedSyncStats`; the `fields_updated` `HashMap` is modelled as an
association list in first-insertion order. -/
structure EnhancedSyncStats where
  strategy : String
  tracks_processed : Nat
  tracks_matched : Nat
  tracks_imported : Nat
  tracks_updated : Nat
  tracks_skipped : Nat
  fields_updated : List (String × Nat)
  cue_points_synced : Nat
  playlists_imported : Nat
  playlist_tracks_linked : Nat
deriving DecidableEq

/-- `format!("{:?}", merge_strategy)`. -/
def MergeStrategy.debugStr : MergeStrategy → String
  | .SmartMerge => "SmartMerge"
  | .TraktorWins => "TraktorWins"
  | .HarmonyWins => "HarmonyWins"

/-- A store write issued by the sync command (reads are pure and not
traced). -/
inductive StoreOp where
  | insertTracks (ts : List Track)
  | updateTrack (t : Track)
  | saveCuePoints (cs : List CuePoint)
  | createPlaylist (p : Playlist)
  | updatePlaylist (p : Playlist)
  | setPlaylistTracks (pid : String) (track_ids : List String)
deriving DecidableEq

/-- `HashMap::insert`: overwrite the existing binding or append a new one. -/
def assocInsert {α : Type} (m : List (String × α)) (k : String) (v : α) : List (String × α) :=
  if m.any (fun p => p.1 = k) then m.map (fun p => if p.1 = k then (k, v) else p)
  else m ++ [(k, v)]

/-- `HashMap::get`. -/
def assocGet {α : Type} (m : List (String × α)) (k : String) : Option α :=
  (m.find? (fun p => p.1 = k)).map (fun p => p.2)

/-- `*fields_updated.entry(field).or_insert(0) += 1`. -/
def bumpField (m : List (String × Nat)) (f : String) : List (String × Nat) :=
  if m.any (fun p => p.1 = f) then m.map (fun p => if p.1 = f then (p.1, p.2 + 1) else p)
  else m ++ [(f, 1)]

/-- Phase 2 accumulator: the mapped tracks (in document order) and the
`traktor_cues_by_path` map. -/
def phase2Fold (entries : List TraktorEntry) : List Track × List (String × List CuePoint) :=
  entries.foldl
    (fun acc entry =>
      let track := map_traktor_entry_to_track entry
      let cue_points :=
        if entry.cue_v2.isEmpty = false then map_traktor_cues_to_harmony (some entry.cue_v2) track.id
        else []
      ( acc.1 ++ [track],
        if cue_points.isEmpty = false then assocInsert acc.2 track.path cue_points else acc.2))
    ([], [])

/-- The mutable state of the phase-4 merge loop. -/
structure Phase4State where
  tracks_to_import : List Track
  tracks_to_update : List Track
  cues_to_save : List CuePoint
  fields_acc : List (String × Nat)
  tracks_processed : Nat
  tracks_matched : Nat
  tracks_updated : Nat
  tracks_skipped : Nat
  cue_points_synced : Nat
deriving DecidableEq

/-- The empty phase-4 state. -/
def phase4Init : Phase4State :=
  { tracks_to_import := [], tracks_to_update := [], cues_to_save := []
    fields_acc := [], tracks_processed := 0, tracks_matched := 0
    tracks_updated := 0, tracks_skipped := 0, cue_points_synced := 0 }

/-- One iteration of the phase-4 loop over `traktor_tracks`. -/
def phase4Step (db : Store) (existing_by_path : List (String × Track))
    (cues_by_path : List (String × List CuePoint)) (ms : MergeStrategy)
    (cs : CueMergeStrategy) (st : Phase4State) (traktor_track : Track) : Phase4State :=
  let st := { st with tracks_processed := st.tracks_processed + 1 }
  match assocGet existing_by_path traktor_track.path with
  | some existing_track =>
    let st := { st with tracks_matched := st.tracks_matched + 1 }
    let merge_result := merge_track existing_track traktor_track ms
    let st :=
      if merge_result.has_changes then
        { st with tracks_to_update := st.tracks_to_update ++ [merge_result.merged]
                  tracks_updated := st.tracks_updated + 1
                  fields_acc := merge_result.fields_updated.foldl bumpField st.fields_acc }
      else { st with tracks_skipped := st.tracks_skipped + 1 }
    let existing_cues := get_cue_points_for_track db existing_track.id
    let traktor_cues := (assocGet cues_by_path traktor_track.path).getD []
    let cue_merge_result := merge_cue_points existing_cues traktor_cues existing_track.id cs
    if cue_merge_result.has_changes then
      { st with cues_to_save := st.cues_to_save ++ cue_merge_result.merged
                cue_points_synced := st.cue_points_synced + cue_merge_result.added }
    else st
  | none =>
    let st := { st with tracks_to_import := st.tracks_to_import ++ [traktor_track] }
    match assocGet cues_by_path traktor_track.path with
    | some cues =>
      { st with cues_to_save := st.cues_to_save ++ cues
                cue_points_synced := st.cue_points_synced + cues.length }
    | none => st

/-- One iteration of the phase-7 playlist loop: create or update the
playlist row, then link the resolvable track paths. -/
def playlistStep (track_id_by_path : List (String × String))
    (acc : Store × List StoreOp × Nat × Nat) (imported : ImportedPlaylist) :
    Store × List StoreOp × Nat × Nat :=
  let playlist := convert_to_harmony_playlist imported
  let next : Store × List StoreOp × Nat :=
    match get_playlist_by_id acc.1 playlist.id with
    | some _ => (update_playlist acc.1 playlist, acc.2.1 ++ [StoreOp.updatePlaylist playlist],
        acc.2.2.1)
    | none => (create_playlist acc.1 playlist, acc.2.1 ++ [StoreOp.createPlaylist playlist],
        acc.2.2.1 + 1)
  let track_ids := imported.track_paths.filterMap (fun path => assocGet track_id_by_path path)
  if track_ids.isEmpty = false then
    (set_playlist_tracks next.1 playlist.id track_ids,
      next.2.1 ++ [StoreOp.setPlaylistTracks playlist.id track_ids],
      next.2.2, acc.2.2.2 + track_ids.length)
  else (next.1, next.2.1, next.2.2, acc.2.2.2)

/-- `sync_traktor_nml` from `commands/traktor.rs`, over a parse outcome
(`parser.parse` does file IO and is modelled by its `Except` result), the
three option arguments and the store.  Returns the command result, the
final store, and the trace of store writes in issue order.  Progress events
and log lines are pure UI output and are not modelled. -/
def sync_traktor_nml (parsed : Except String TraktorNML)
    (strategy cue_strategy : Option String) (sync_playlists : Option Bool) (db : Store) :
    Except String EnhancedSyncStats × Store × List StoreOp :=
  let merge_strategy : MergeStrategy :=
    match strategy with
    | some "TRAKTOR_WINS" => .TraktorWins
    | some "HARMONY_WINS" => .HarmonyWins
    | _ => .SmartMerge
  let cue_merge_strategy : CueMergeStrategy :=
    match cue_strategy with
    | some "REPLACE" => .Replace
    | _ => .SmartMerge
  let should_sync_playlists := sync_playlists.getD true
  match parsed with
  | .error e => (.error e, db, [])
  | .ok nml =>
    let p2 := phase2Fold nml.nml.collection.entry
    let traktor_tracks := p2.1
    let traktor_cues_by_path := p2.2
    let existing_by_path :=
      (get_all_tracks db).foldl (fun m t => assocInsert m t.path t) []
    let p4 := traktor_tracks.foldl
      (phase4Step db existing_by_path traktor_cues_by_path merge_strategy cue_merge_strategy)
      phase4Init
    let step5a : Store × List StoreOp × Nat :=
      if p4.tracks_to_import.isEmpty = false then
        (insert_tracks db p4.tracks_to_import, [StoreOp.insertTracks p4.tracks_to_import],
          p4.tracks_to_import.length)
      else (db, [], 0)
    let step5 : Store × List StoreOp :=
      p4.tracks_to_update.foldl
        (fun acc t => (update_track acc.1 t, acc.2 ++ [StoreOp.updateTrack t]))
        (step5a.1, step5a.2.1)
    let step6 : Store × List StoreOp :=
      if p4.cues_to_save.isEmpty = false then
        (save_cue_points step5.1 p4.cues_to_save, step5.2 ++ [StoreOp.saveCuePoints p4.cues_to_save])
      else step5
    let step7 : Store × List StoreOp × Nat × Nat :=
      if should_sync_playlists then
        match nml.nml.playlists with
        | some playlists_root =>
          let imported_playlists := extract_playlists_from_traktor playlists_root.node
          let track_id_by_path :=
            (get_all_tracks step6.1).foldl (fun m t => assocInsert m t.path t.id) []
          imported_playlists.foldl (playlistStep track_id_by_path) (step6.1, step6.2, 0, 0)
        | none => (step6.1, step6.2, 0, 0)
      else (step6.1, step6.2, 0, 0)
    (.ok
      { strategy := merge_strategy.debugStr
        tracks_processed := p4.tracks_processed
        tracks_matched := p4.tracks_matched
        tracks_imported := step5a.2.2
        tracks_updated := p4.tracks_updated
        tracks_skipped := p4.tracks_skipped
        fields_updated := p4.fields_acc
        cue_points_synced := p4.cue_points_synced
        playlists_imported := step7.2.2.1
        playlist_tracks_linked := step7.2.2.2 },
      step7.1, step7.2.1)

/-! ## Abbreviations for the idempotence analysis of the sync pipeline.

These name intermediate values of `sync_traktor_nml` (they are definitional
projections of it) so that the idempotence statement and its proof can
speak about them. -/

/-- The tracks mapped from the document (phase 2). -/
def docT (doc : TraktorNML) : List Track := (phase2Fold doc.nml.collection.entry).1

/-- The `traktor_cues_by_path` map of the document (phase 2). -/
def docM (doc : TraktorNML) : List (String × List CuePoint) :=
  (phase2Fold doc.nml.collection.entry).2

/-- The `existing_by_path` index of a row list (phase 3). -/
def pathIdx (rows : List Track) : List (String × Track) :=
  rows.foldl (fun m t => assocInsert m t.path t) []

/-- The phase-4 state of a SmartMerge/SmartMerge run of the document
against a store. -/
def run4 (db : Store) (doc : TraktorNML) : Phase4State :=
  (docT doc).foldl
    (phase4Step db (pathIdx db.tracks) (docM doc) .SmartMerge .SmartMerge) phase4Init

/-- The row rewrite performed by the phase-5 `update_track` loop on one
row: each update in turn overwrites the row it id-matches, keeping the
row's `addedAt`. -/
def applyUpd (us : List Track) (r : Track) : Track :=
  us.foldl (fun r' u => if r'.id = u.id then { u with added_at := r'.added_at } else r') r

/-- The tracks a run imports: those whose path misses the index. -/
def importsOf (ebp : List (String × Track)) (T : List Track) : List Track :=
  T.filter (fun t => (assocGet ebp t.path).isNone)

/-- The merged tracks a run writes back: matched tracks whose merge reports
changes. -/
def updatesOf (ebp : List (String × Track)) (ms : MergeStrategy) (T : List Track) :
    List Track :=
  T.filterMap (fun t =>
    match assocGet ebp t.path with
    | some h =>
      if (merge_track h t ms).has_changes then some (merge_track h t ms).merged else none
    | none => none)

/-- The `tracks_updated` counter accumulated by phase 4. -/
def updatedCountOf (ebp : List (String × Track)) (ms : MergeStrategy) : List Track → Nat
  | [] => 0
  | t :: ts =>
    (match assocGet ebp t.path with
     | some h => if (merge_track h t ms).has_changes then 1 else 0
     | none => 0) + updatedCountOf ebp ms ts

/-- The `cue_points_synced` counter accumulated by phase 4. -/
def cpsCountOf (db : Store) (ebp : List (String × Track))
    (cuesMap : List (String × List CuePoint)) (cs : CueMergeStrategy) : List Track → Nat
  | [] => 0
  | t :: ts =>
    (match assocGet ebp t.path with
     | some h =>
       if (merge_cue_points (get_cue_points_for_track db h.id)
            ((assocGet cuesMap t.path).getD []) h.id cs).has_changes then
         (merge_cue_points (get_cue_points_for_track db h.id)
            ((assocGet cuesMap t.path).getD []) h.id cs).added
       else 0
     | none =>
       match assocGet cuesMap t.path with
       | some cues => cues.length
       | none => 0) + cpsCountOf db ebp cuesMap cs ts

/-- The store with no rows at all. -/
def emptyStore : Store := { tracks := [], cues := [], playlists := [], playlist_tracks := [] }

/-- An entry at path `/a.mp3` with the given title and nothing else. -/
def c1Entry (title : String) : TraktorEntry :=
  { modified_date := none, modified_time := none, audio_id := none
    title := some title, artist := none
    location := { dir := "/:", file := "a.mp3", volume := none, volumeid := none }
    album := none, modification_info := none, info := none, tempo := none
    loudness := none, musical_key := none, cue_v2 := [], primarykey := none }

/-- A document listing the same file twice — once with title `"X"`, once
with a blank title — which breaks sync idempotence. -/
def c1Doc : TraktorNML :=
  { nml :=
    { version := "19"
      head := { company := "www.native-instruments.com", program := "Traktor" }
      collection := { entries := "2", entry := [c1Entry "X", c1Entry " "] }
      playlists := none, indexing := none } }

/-- A well-formed single-entry document (path `/b.mp3`, one hot cue) used to
witness the amended idempotence claim. -/
def c1DocW : TraktorNML :=
  { nml :=
    { version := "19"
      head := { company := "www.native-instruments.com", program := "Traktor" }
      collection :=
        { entries := "1"
          entry :=
            [{ modified_date := none, modified_time := none, audio_id := none
               title := some "B", artist := some "Someone"
               location := { dir := "/:", file := "b.mp3", volume := none, volumeid := none }
               album := none, modification_info := none, info := none, tempo := none
               loudness := none, musical_key := none
               cue_v2 :=
                 [{ name := some "Drop", displ_order := some "0", cue_type := "0"
                    start := "1000", len := none, repeats := some "-1"
                    hotcue := some "0", grid := none }]
               primarykey := none }] }
      playlists := none, indexing := none } }

/-! ## Theorems: decimal strings -/

theorem digitVal_digitChar {d : Nat} (hd : d < 10) : digitVal (digitChar d) = d := by
  interval_cases d <;> decide

theorem isDigitChar_digitChar {d : Nat} (hd : d < 10) : isDigitChar (digitChar d) = true := by
  interval_cases d <;> decide

theorem isDigitChar_spec {c : Char} (h : isDigitChar c = true) :
    c ≠ '-' ∧ c ≠ '+' ∧ c ≠ '.' := by
  refine ⟨?_, ?_, ?_⟩ <;> rintro rfl <;> exact absurd h (by decide)

theorem digitsLE_eq {fuel n : Nat} (h : n ≤ fuel) : digitsLE fuel n = Nat.digits 10 n := by
  induction fuel generalizing n with
  | zero =>
    interval_cases n
    simp [digitsLE]
  | succ fuel ih =>
    rw [digitsLE]
    by_cases hn : n = 0
    · subst hn
      simp
    · rw [if_neg hn, ih (show n / 10 ≤ fuel by omega),
        Nat.digits_def' (by norm_num : (1 : ℕ) < 10) (show 0 < n by omega)]

theorem natDigits10_eq (m : Nat) : natDigits10 m = Nat.digits 10 m :=
  digitsLE_eq le_rfl

theorem digitsVal_natDigitChars (m : Nat) : digitsVal (natDigitChars m) = m := by
  unfold digitsVal natDigitChars
  rw [natDigits10_eq, List.map_reverse, List.reverse_reverse, List.map_map]
  have h : (Nat.digits 10 m).map (digitVal ∘ digitChar) = Nat.digits 10 m := by
    refine (List.map_congr_left fun d hd => ?_).trans (List.map_id _)
    exact digitVal_digitChar (Nat.digits_lt_base (by norm_num) hd)
  rw [h, Nat.ofDigits_digits]

theorem all_isDigitChar_natDigitChars (m : Nat) :
    (natDigitChars m).all isDigitChar = true := by
  rw [List.all_eq_true]
  intro c hc
  rw [natDigitChars, natDigits10_eq, List.mem_reverse, List.mem_map] at hc
  obtain ⟨d, hd, rfl⟩ := hc
  exact isDigitChar_digitChar (Nat.digits_lt_base (by norm_num) hd)

theorem digitsVal_natBaseStr (m : Nat) : digitsVal (natBaseStr m) = m := by
  unfold natBaseStr
  split
  · subst m; decide
  · exact digitsVal_natDigitChars m

theorem all_isDigitChar_natBaseStr (m : Nat) :
    (natBaseStr m).all isDigitChar = true := by
  unfold natBaseStr
  split
  · decide
  · exact all_isDigitChar_natDigitChars m

theorem natBaseStr_ne_nil (m : Nat) : natBaseStr m ≠ [] := by
  unfold natBaseStr
  split
  · simp
  · next hm =>
    simp only [natDigitChars, natDigits10_eq, ne_eq, List.reverse_eq_nil_iff,
      List.map_eq_nil_iff]
    exact Nat.digits_ne_nil_iff_ne_zero.mpr hm

theorem natBaseStr_head (m : Nat) :
    ∃ c cs, natBaseStr m = c :: cs ∧ isDigitChar c = true := by
  obtain ⟨c, cs, h⟩ := List.exists_cons_of_ne_nil (natBaseStr_ne_nil m)
  refine ⟨c, cs, h, ?_⟩
  have := all_isDigitChar_natBaseStr m
  rw [List.all_eq_true] at this
  exact this c (h ▸ List.mem_cons_self c cs)

theorem parseNatDigits_natBaseStr (m : Nat) : parseNatDigits (natBaseStr m) = some m := by
  unfold parseNatDigits
  rw [if_pos ⟨natBaseStr_ne_nil m, all_isDigitChar_natBaseStr m⟩, digitsVal_natBaseStr]

/-- Round trip of the integer rendering through `str::parse::<i32>`. -/
theorem parseI32_intStr {k : Int} (hlo : -(2 ^ 31) ≤ k) (hhi : k < 2 ^ 31) :
    parseI32 (intStr k) = some k := by
  by_cases hk : k < 0
  · have hdata : intStr k = ⟨'-' :: natBaseStr k.natAbs⟩ := by
      simp [intStr, hk]
    have hred : parseI32 ⟨'-' :: natBaseStr k.natAbs⟩ =
        ((parseNatDigits (natBaseStr k.natAbs)).map (fun n => -(Int.ofNat n))).bind
          (fun v => if -(2 ^ 31) ≤ v ∧ v < 2 ^ 31 then some v else none) := rfl
    rw [hdata, hred, parseNatDigits_natBaseStr, Option.map_some', Option.some_bind]
    rw [show -(Int.ofNat k.natAbs) = k by rw [Int.ofNat_eq_coe]; omega, if_pos ⟨hlo, hhi⟩]
  · obtain ⟨c, cs, hcons, hc⟩ := natBaseStr_head k.natAbs
    have hspec := isDigitChar_spec hc
    have hdata : intStr k = ⟨natBaseStr k.natAbs⟩ := by
      simp [intStr, hk]
    rw [hdata]
    have h1 : (⟨natBaseStr k.natAbs⟩ : String).data.head? ≠ some '-' := by
      rw [show (⟨natBaseStr k.natAbs⟩ : String).data = natBaseStr k.natAbs from rfl, hcons]
      simpa using hspec.1
    have h2 : (⟨natBaseStr k.natAbs⟩ : String).data.head? ≠ some '+' := by
      rw [show (⟨natBaseStr k.natAbs⟩ : String).data = natBaseStr k.natAbs from rfl, hcons]
      simpa using hspec.2.1
    rw [parseI32, if_neg h1, if_neg h2]
    rw [show (⟨natBaseStr k.natAbs⟩ : String).data = natBaseStr k.natAbs from rfl,
      parseNatDigits_natBaseStr, Option.map_some', Option.some_bind]
    rw [show Int.ofNat k.natAbs = k by rw [Int.ofNat_eq_coe]; omega, if_pos ⟨hlo, hhi⟩]

theorem takeWhile_append_all {α : Type} {p : α → Bool} {l1 l2 : List α}
    (h : ∀ c ∈ l1, p c = true) :
    (l1 ++ l2).takeWhile p = l1 ++ l2.takeWhile p := by
  induction l1 with
  | nil => simp
  | cons c cs ih =>
    rw [List.cons_append, List.takeWhile_cons, if_pos (h c (by simp)), List.cons_append,
      ih fun x hx => h x (by simp [hx])]

theorem dropWhile_append_all {α : Type} {p : α → Bool} {l1 l2 : List α}
    (h : ∀ c ∈ l1, p c = true) :
    (l1 ++ l2).dropWhile p = l2.dropWhile p := by
  induction l1 with
  | nil => simp
  | cons c cs ih =>
    rw [List.cons_append, List.dropWhile_cons, if_pos (h c (by simp))]
    exact ih fun x hx => h x (by simp [hx])

theorem ofDigits_replicate_zero (b j : Nat) :
    Nat.ofDigits b (List.replicate j 0) = 0 := by
  induction j with
  | zero => rfl
  | succ j ih => simp [List.replicate_succ, Nat.ofDigits_cons, ih]

theorem ofDigits_append_zeros (b : Nat) (l : List Nat) (j : Nat) :
    Nat.ofDigits b (l ++ List.replicate j 0) = Nat.ofDigits b l := by
  rw [Nat.ofDigits_append, ofDigits_replicate_zero]
  simp

theorem natDigitChars_length_le {m e : Nat} (hm : m < 10 ^ e) :
    (natDigitChars m).length ≤ e := by
  rw [natDigitChars, natDigits10_eq, List.length_reverse, List.length_map]
  rcases Nat.eq_zero_or_pos m with rfl | hpos
  · simp
  · rw [Nat.digits_len 10 m (by norm_num) (by omega)]
    have := (Nat.lt_pow_iff_log_lt (by norm_num : 1 < 10) (by omega : m ≠ 0)).mp hm
    omega

theorem fracDigits6_length {k : Nat} (hk : k < 10 ^ 6) :
    (fracDigits6 k).length = 6 := by
  have := natDigitChars_length_le hk
  simp only [fracDigits6, List.length_append, List.length_replicate]
  omega

theorem digitsVal_fracDigits6 (k : Nat) : digitsVal (fracDigits6 k) = k := by
  unfold digitsVal fracDigits6
  rw [List.map_append, List.map_replicate, List.reverse_append, List.reverse_replicate]
  have h0 : digitVal '0' = 0 := by decide
  rw [h0, ofDigits_append_zeros]
  exact digitsVal_natDigitChars k

theorem all_isDigitChar_fracDigits6 (k : Nat) :
    (fracDigits6 k).all isDigitChar = true := by
  rw [fracDigits6, List.all_append]
  refine Bool.and_eq_true_iff.mpr ⟨?_, all_isDigitChar_natDigitChars k⟩
  rw [List.all_eq_true]
  intro c hc
  rw [List.eq_of_mem_replicate hc]
  decide

theorem natBaseStr_not_dot (x : Nat) :
    ∀ c ∈ natBaseStr x, (decide (c ≠ '.')) = true := by
  intro c hc
  have hall := all_isDigitChar_natBaseStr x
  rw [List.all_eq_true] at hall
  simpa using (isDigitChar_spec (hall c hc)).2.2

/-- Parsing the unsigned decimal rendering `"{a}.{ffffff}"`. -/
theorem parseUnsignedDecimal_mk (a b : Nat) (hb : b < 10 ^ 6) :
    parseUnsignedDecimal (natBaseStr a ++ '.' :: fracDigits6 b) =
      some ((a : ℚ) + (b : ℚ) / 1000000) := by
  have htake : (natBaseStr a ++ '.' :: fracDigits6 b).takeWhile (· ≠ '.') = natBaseStr a := by
    rw [takeWhile_append_all (natBaseStr_not_dot a), List.takeWhile_cons,
      if_neg (by decide), List.append_nil]
  have hdrop : (natBaseStr a ++ '.' :: fracDigits6 b).dropWhile (· ≠ '.') =
      '.' :: fracDigits6 b := by
    rw [dropWhile_append_all (natBaseStr_not_dot a), List.dropWhile_cons, if_neg (by decide)]
  unfold parseUnsignedDecimal
  rw [htake, hdrop]
  dsimp only
  rw [if_pos ⟨all_isDigitChar_natBaseStr a, all_isDigitChar_fracDigits6 b,
    Or.inl (natBaseStr_ne_nil a)⟩]
  rw [digitsVal_natBaseStr, digitsVal_fracDigits6, fracDigits6_length hb]
  norm_num

theorem parseDecimal_mk_neg (L : List Char) :
    parseDecimal ⟨'-' :: L⟩ = (parseUnsignedDecimal L).map (fun q => -q) := rfl

theorem parseDecimal_mk_digit {c : Char} (hc : isDigitChar c = true) (L : List Char) :
    parseDecimal ⟨c :: L⟩ = parseUnsignedDecimal (c :: L) := by
  have h := isDigitChar_spec hc
  have h1 : ((⟨c :: L⟩ : String)).data.head? ≠ some '-' := by
    show some c ≠ some '-'
    simp [h.1]
  have h2 : ((⟨c :: L⟩ : String)).data.head? ≠ some '+' := by
    show some c ≠ some '+'
    simp [h.2.1]
  rw [parseDecimal, if_neg h1, if_neg h2]

/-- The `fmt6` rendering, unfolded. -/
theorem fmt6_eq (q : Rat) :
    fmt6 q = ⟨(if round (q * 1000000) < 0 then ['-'] else []) ++
      natBaseStr ((round (q * 1000000)).natAbs / 1000000) ++
      '.' :: fracDigits6 ((round (q * 1000000)).natAbs % 1000000)⟩ := rfl

/-- Parsing the six-decimal rendering recovers the rounded value exactly. -/
theorem parseDecimal_fmt6 (q : Rat) :
    parseDecimal (fmt6 q) = some (((round (q * 1000000) : ℤ) : ℚ) / 1000000) := by
  have hb : (round (q * 1000000)).natAbs % 1000000 < 10 ^ 6 := by
    have := Nat.mod_lt (round (q * 1000000)).natAbs (show 0 < 1000000 by norm_num)
    omega
  have hmk := parseUnsignedDecimal_mk ((round (q * 1000000)).natAbs / 1000000)
    ((round (q * 1000000)).natAbs % 1000000) hb
  have hsum : (((round (q * 1000000)).natAbs / 1000000 : ℕ) : ℚ) +
      (((round (q * 1000000)).natAbs % 1000000 : ℕ) : ℚ) / 1000000 =
      (((round (q * 1000000)).natAbs : ℕ) : ℚ) / 1000000 := by
    have hnat : (round (q * 1000000)).natAbs / 1000000 * 1000000 +
        (round (q * 1000000)).natAbs % 1000000 = (round (q * 1000000)).natAbs := by omega
    field_simp
    exact_mod_cast hnat
  by_cases hneg : round (q * 1000000) < 0
  · rw [fmt6_eq, if_pos hneg]
    rw [show (⟨['-'] ++ natBaseStr ((round (q * 1000000)).natAbs / 1000000) ++
        '.' :: fracDigits6 ((round (q * 1000000)).natAbs % 1000000)⟩ : String) =
      ⟨'-' :: (natBaseStr ((round (q * 1000000)).natAbs / 1000000) ++
        '.' :: fracDigits6 ((round (q * 1000000)).natAbs % 1000000))⟩ from rfl]
    rw [parseDecimal_mk_neg, hmk, hsum]
    have hcast : (((round (q * 1000000)).natAbs : ℕ) : ℚ) =
        -(((round (q * 1000000) : ℤ) : ℚ)) := by
      rw [Int.cast_natAbs, abs_of_neg hneg]
      push_cast
      ring
    rw [Option.map_some']
    rw [hcast]
    congr 1
    ring
  · rw [fmt6_eq, if_neg hneg]
    obtain ⟨c, cs, hcons, hc⟩ := natBaseStr_head ((round (q * 1000000)).natAbs / 1000000)
    rw [show (⟨[] ++ natBaseStr ((round (q * 1000000)).natAbs / 1000000) ++
        '.' :: fracDigits6 ((round (q * 1000000)).natAbs % 1000000)⟩ : String) =
      ⟨natBaseStr ((round (q * 1000000)).natAbs / 1000000) ++
        '.' :: fracDigits6 ((round (q * 1000000)).natAbs % 1000000)⟩ from by rw [List.nil_append]]
    rw [hcons, List.cons_append, parseDecimal_mk_digit hc, ← List.cons_append, ← hcons, hmk,
      hsum]
    have hcast : (((round (q * 1000000)).natAbs : ℕ) : ℚ) =
        ((round (q * 1000000) : ℤ) : ℚ) := by
      rw [Int.cast_natAbs, abs_of_nonneg (not_lt.mp hneg)]
    rw [hcast]

/-- The printed six-decimal value is within the spec's `1e-3` tolerance of the
original (indeed within `5·10⁻⁷`). -/
theorem fmt6_value_close (q : Rat) :
    |q - ((round (q * 1000000) : ℤ) : ℚ) / 1000000| < 1 / 1000 := by
  have h := abs_sub_round (q * 1000000)
  have habs : |q - ((round (q * 1000000) : ℤ) : ℚ) / 1000000| =
      |q * 1000000 - ((round (q * 1000000) : ℤ) : ℚ)| / 1000000 := by
    rw [show q - ((round (q * 1000000) : ℤ) : ℚ) / 1000000 =
      (q * 1000000 - ((round (q * 1000000) : ℤ) : ℚ)) / 1000000 by ring]
    rw [abs_div]
    norm_num
  rw [habs]
  linarith [abs_nonneg (q * 1000000 - ((round (q * 1000000) : ℤ) : ℚ))]

/-! ## Theorems: conflict resolver -/

theorem mergeFieldValue_smart_fst {α : Type} [DecidableEq α] (e : α → Bool) (hv tv : α) :
    (mergeFieldValue .SmartMerge e hv tv).1 =
      if e hv = true ∧ e tv = false then tv else hv := by
  unfold mergeFieldValue
  rw [if_neg (by decide)]
  split <;> rfl

theorem mergeFieldValue_smart_snd {α : Type} [DecidableEq α] (e : α → Bool) (hv tv : α) :
    (mergeFieldValue .SmartMerge e hv tv).2 =
      decide (e hv = true ∧ e tv = false) := by
  unfold mergeFieldValue
  rw [if_neg (by decide)]
  split <;> simp_all

/-- Merging the adopted value again under SmartMerge never updates the field:
after one merge the Harmony-side value is non-empty or Traktor's is empty. -/
theorem mergeFieldValue_smart_idem {α : Type} [DecidableEq α] (e : α → Bool) (hv tv : α) :
    (mergeFieldValue .SmartMerge e (mergeFieldValue .SmartMerge e hv tv).1 tv).2 = false := by
  rw [mergeFieldValue_smart_snd, mergeFieldValue_smart_fst]
  by_cases h1 : e hv = true ∧ e tv = false
  · rw [if_pos h1]
    simp [h1.2]
  · rw [if_neg h1]
    simpa using h1

/-- A SmartMerge of a track with itself updates no field. -/
theorem mergeFieldValue_smart_self {α : Type} [DecidableEq α] (e : α → Bool) (v : α) :
    (mergeFieldValue .SmartMerge e v v).2 = false := by
  rw [mergeFieldValue_smart_snd]
  by_cases h : e v = true <;> simp [h]

/-- Claim C4: the merge matrix.  On the §8 scenario (canonical artist/bpm
empty, genre "House"; Traktor artist "DJ X", bpm 128, genre "Techno"):
SmartMerge adopts artist and bpm, keeps genre, and reports exactly
`fields_updated = [artist, bpm]`; TraktorWins additionally overwrites genre;
HarmonyWins returns the canonical track unchanged with `has_changes = false`.
In general, SmartMerge adopts Traktor's value for each of the eleven
mergeable fields exactly when the canonical value is empty and Traktor's is
non-empty. -/
theorem C4_merge_track_matrix :
    ((merge_track c4Harmony c4Traktor .SmartMerge).merged.artist = some "DJ X" ∧
     (merge_track c4Harmony c4Traktor .SmartMerge).merged.bpm = some 128 ∧
     (merge_track c4Harmony c4Traktor .SmartMerge).merged.genre = some "House" ∧
     (merge_track c4Harmony c4Traktor .SmartMerge).fields_updated = ["artist", "bpm"] ∧
     (merge_track c4Harmony c4Traktor .SmartMerge).has_changes = true) ∧
    ((merge_track c4Harmony c4Traktor .TraktorWins).merged.artist = some "DJ X" ∧
     (merge_track c4Harmony c4Traktor .TraktorWins).merged.bpm = some 128 ∧
     (merge_track c4Harmony c4Traktor .TraktorWins).merged.genre = some "Techno") ∧
    ((merge_track c4Harmony c4Traktor .HarmonyWins).merged = c4Harmony ∧
     (merge_track c4Harmony c4Traktor .HarmonyWins).has_changes = false) ∧
    (∀ harmony traktor : Track,
      ((merge_track harmony traktor .SmartMerge).merged.title =
        if trimEmpty harmony.title = true ∧ trimEmpty traktor.title = false
        then traktor.title else harmony.title) ∧
      ((merge_track harmony traktor .SmartMerge).merged.artist =
        if is_string_empty harmony.artist = true ∧ is_string_empty traktor.artist = false
        then traktor.artist else harmony.artist) ∧
      ((merge_track harmony traktor .SmartMerge).merged.album =
        if is_string_empty harmony.album = true ∧ is_string_empty traktor.album = false
        then traktor.album else harmony.album) ∧
      ((merge_track harmony traktor .SmartMerge).merged.genre =
        if is_string_empty harmony.genre = true ∧ is_string_empty traktor.genre = false
        then traktor.genre else harmony.genre) ∧
      ((merge_track harmony traktor .SmartMerge).merged.year =
        if is_int_empty harmony.year = true ∧ is_int_empty traktor.year = false
        then traktor.year else harmony.year) ∧
      ((merge_track harmony traktor .SmartMerge).merged.bpm =
        if is_int_empty harmony.bpm = true ∧ is_int_empty traktor.bpm = false
        then traktor.bpm else harmony.bpm) ∧
      ((merge_track harmony traktor .SmartMerge).merged.initial_key =
        if is_string_empty harmony.initial_key = true ∧ is_string_empty traktor.initial_key = false
        then traktor.initial_key else harmony.initial_key) ∧
      ((merge_track harmony traktor .SmartMerge).merged.rating =
        if harmony.rating.isNone = true ∧ traktor.rating.isNone = false
        then traktor.rating else harmony.rating) ∧
      ((merge_track harmony traktor .SmartMerge).merged.comment =
        if is_string_empty harmony.comment = true ∧ is_string_empty traktor.comment = false
        then traktor.comment else harmony.comment) ∧
      ((merge_track harmony traktor .SmartMerge).merged.bitrate =
        if is_int_empty harmony.bitrate = true ∧ is_int_empty traktor.bitrate = false
        then traktor.bitrate else harmony.bitrate) ∧
      ((merge_track harmony traktor .SmartMerge).merged.label =
        if is_string_empty harmony.label = true ∧ is_string_empty traktor.label = false
        then traktor.label else harmony.label)) := by
  refine ⟨by decide, by decide, by decide, ?_⟩
  intro harmony traktor
  exact ⟨mergeFieldValue_smart_fst .., mergeFieldValue_smart_fst ..,
    mergeFieldValue_smart_fst .., mergeFieldValue_smart_fst ..,
    mergeFieldValue_smart_fst .., mergeFieldValue_smart_fst ..,
    mergeFieldValue_smart_fst .., mergeFieldValue_smart_fst ..,
    mergeFieldValue_smart_fst .., mergeFieldValue_smart_fst ..,
    mergeFieldValue_smart_fst ..⟩

/-- Claim C6: identity-field frame.  Under every strategy, `merge_track`
returns a track whose `id`, `path`, `duration`, `waveform_peaks`, `url` and
`added_at` equal the canonical input's. -/
theorem C6_merge_track_identity_frame (harmony traktor : Track) (strategy : MergeStrategy) :
    (merge_track harmony traktor strategy).merged.id = harmony.id ∧
    (merge_track harmony traktor strategy).merged.path = harmony.path ∧
    (merge_track harmony traktor strategy).merged.duration = harmony.duration ∧
    (merge_track harmony traktor strategy).merged.waveform_peaks = harmony.waveform_peaks ∧
    (merge_track harmony traktor strategy).merged.url = harmony.url ∧
    (merge_track harmony traktor strategy).merged.added_at = harmony.added_at := by
  cases strategy <;> exact ⟨rfl, rfl, rfl, rfl, rfl, rfl⟩

/-- Claim C5: cue merge semantics.  SmartMerge with a non-empty canonical cue
list returns it unchanged with no counts; Replace returns Traktor's cues with
`track_id` rewritten, `added = |T|`, `removed = |H|`; `removed` is nonzero
only under Replace; and the 2-cues-vs-1-cue scenario yields 2 cues/no change
under SmartMerge and 1 cue, added 1, removed 2 under Replace. -/
theorem C5_merge_cue_points_semantics :
    (∀ (H T : List CuePoint) (tid : String), H ≠ [] →
      merge_cue_points H T tid .SmartMerge =
        { merged := H, has_changes := false, added := 0, removed := 0 }) ∧
    (∀ (H T : List CuePoint) (tid : String),
      (merge_cue_points H T tid .Replace).merged =
          T.map (fun c => { c with track_id := tid }) ∧
      (merge_cue_points H T tid .Replace).added = T.length ∧
      (merge_cue_points H T tid .Replace).removed = H.length) ∧
    (∀ (H T : List CuePoint) (tid : String),
      (merge_cue_points H T tid .SmartMerge).removed = 0) ∧
    ((merge_cue_points c5HarmonyCues c5TraktorCues "track-1" .SmartMerge).merged.length = 2 ∧
     (merge_cue_points c5HarmonyCues c5TraktorCues "track-1" .SmartMerge).has_changes = false ∧
     (merge_cue_points c5HarmonyCues c5TraktorCues "track-1" .Replace).merged.length = 1 ∧
     (merge_cue_points c5HarmonyCues c5TraktorCues "track-1" .Replace).added = 1 ∧
     (merge_cue_points c5HarmonyCues c5TraktorCues "track-1" .Replace).removed = 2) := by
  refine ⟨?_, ?_, ?_, by decide⟩
  · intro H T tid hH
    unfold merge_cue_points
    rw [if_pos ⟨rfl, by simpa using hH⟩]
  · intro H T tid
    have c1 : ¬(CueMergeStrategy.Replace = CueMergeStrategy.SmartMerge ∧
        H.isEmpty = false) := by simp
    have c2 : CueMergeStrategy.Replace = CueMergeStrategy.Replace ∨ H.isEmpty = true :=
      Or.inl rfl
    unfold merge_cue_points
    rw [if_neg c1, if_pos c2]
    exact ⟨rfl, rfl, by simp⟩
  · intro H T tid
    by_cases hH : H.isEmpty = true
    · have c1 : ¬(CueMergeStrategy.SmartMerge = CueMergeStrategy.SmartMerge ∧
          H.isEmpty = false) := by simp [hH]
      have c2 : CueMergeStrategy.SmartMerge = CueMergeStrategy.Replace ∨ H.isEmpty = true :=
        Or.inr hH
      unfold merge_cue_points
      rw [if_neg c1, if_pos c2]
      simp
    · unfold merge_cue_points
      rw [if_pos ⟨rfl, by simpa using hH⟩]

theorem C5_merge_cue_points_semantics_witness :
    merge_cue_points c5HarmonyCues c5TraktorCues "track-1" .SmartMerge =
      { merged := c5HarmonyCues, has_changes := false, added := 0, removed := 0 } :=
  C5_merge_cue_points_semantics.1 c5HarmonyCues c5TraktorCues "track-1" (by decide)

/-- Claim C10: whenever `merge_cue_points` adopts Traktor's cues — under
Replace, or under SmartMerge with an empty canonical list — the result is
exactly the Traktor list in order, each cue unchanged in every field except
`track_id`, which is rewritten to the supplied canonical track id. -/
theorem C10_merge_cue_points_rewrite :
    (∀ (H T : List CuePoint) (tid : String), H = [] →
      (merge_cue_points H T tid .SmartMerge).merged =
        T.map (fun c => { c with track_id := tid }) ∧
      (merge_cue_points H T tid .SmartMerge).merged.length = T.length) ∧
    (∀ (H T : List CuePoint) (tid : String),
      (merge_cue_points H T tid .Replace).merged =
        T.map (fun c => { c with track_id := tid }) ∧
      (merge_cue_points H T tid .Replace).merged.length = T.length) := by
  constructor
  · rintro H T tid rfl
    have c1 : ¬(CueMergeStrategy.SmartMerge = CueMergeStrategy.SmartMerge ∧
        ([] : List CuePoint).isEmpty = false) := by simp
    have c2 : CueMergeStrategy.SmartMerge = CueMergeStrategy.Replace ∨
        ([] : List CuePoint).isEmpty = true := Or.inr rfl
    unfold merge_cue_points
    rw [if_neg c1, if_pos c2]
    exact ⟨rfl, by simp⟩
  · intro H T tid
    have c1 : ¬(CueMergeStrategy.Replace = CueMergeStrategy.SmartMerge ∧
        H.isEmpty = false) := by simp
    have c2 : CueMergeStrategy.Replace = CueMergeStrategy.Replace ∨ H.isEmpty = true :=
      Or.inl rfl
    unfold merge_cue_points
    rw [if_neg c1, if_pos c2]
    exact ⟨rfl, by simp⟩

/-! ## Theorems: path translator round trip -/

theorem splitOnSlash_ne_nil (cs : List Char) : splitOnSlash cs ≠ [] := by
  cases cs with
  | nil => simp [splitOnSlash]
  | cons c rest =>
    rw [splitOnSlash]
    cases h : splitOnSlash rest with
    | nil => simp
    | cons seg segs =>
      dsimp only
      split <;> simp

theorem splitOnSlash_cons_slash (cs : List Char) :
    splitOnSlash ('/' :: cs) = [] :: splitOnSlash cs := by
  rw [splitOnSlash]
  cases h : splitOnSlash cs with
  | nil => exact absurd h (splitOnSlash_ne_nil cs)
  | cons seg segs =>
    dsimp only
    rw [if_pos rfl]

theorem splitOnSlash_no_slash {l : List Char} (h : '/' ∉ l) :
    splitOnSlash l = [l] := by
  induction l with
  | nil => rfl
  | cons c cs ih =>
    have hc : c ≠ '/' := fun hc => h (hc ▸ List.mem_cons_self c cs)
    rw [splitOnSlash, ih (fun hm => h (List.mem_cons_of_mem c hm))]
    dsimp only
    rw [if_neg hc]

theorem splitOnSlash_append {x : List Char} (cs : List Char) {s : List Char}
    {ss : List (List Char)} (hx : '/' ∉ x) (hcs : splitOnSlash cs = s :: ss) :
    splitOnSlash (x ++ cs) = (x ++ s) :: ss := by
  induction x with
  | nil => simpa using hcs
  | cons c cx ih =>
    have hc : c ≠ '/' := fun hc => hx (hc ▸ List.mem_cons_self c cx)
    rw [List.cons_append, splitOnSlash,
      ih (fun hm => hx (List.mem_cons_of_mem c hm))]
    dsimp only
    rw [if_neg hc]
    rfl

theorem joinWith_cons_cons (sep x y : List Char) (ys : List (List Char)) :
    joinWith sep (x :: y :: ys) = x ++ (sep ++ joinWith sep (y :: ys)) := by
  rw [show joinWith sep (x :: y :: ys) = x ++ sep ++ joinWith sep (y :: ys) from rfl,
    List.append_assoc]

theorem splitOnSlash_joinWith {L : List (List Char)} (hL : L ≠ [])
    (h : ∀ seg ∈ L, '/' ∉ seg) :
    splitOnSlash (joinWith ['/'] L) = L := by
  induction L with
  | nil => exact absurd rfl hL
  | cons x xs ih =>
    cases xs with
    | nil => exact splitOnSlash_no_slash (h x (List.mem_cons_self x []))
    | cons y ys =>
      have hxs := ih (by simp) (fun seg hs => h seg (List.mem_cons_of_mem x hs))
      have hx : '/' ∉ x := h x (List.mem_cons_self x (y :: ys))
      rw [joinWith_cons_cons]
      rw [splitOnSlash_append (['/'] ++ joinWith ['/'] (y :: ys)) hx
        (by rw [show (['/'] ++ joinWith ['/'] (y :: ys) : List Char) =
            '/' :: joinWith ['/'] (y :: ys) from rfl,
          splitOnSlash_cons_slash, hxs])]
      simp

theorem joinWith_append_single (sep : List Char) {L : List (List Char)}
    (x : List Char) (hL : L ≠ []) :
    joinWith sep (L ++ [x]) = joinWith sep L ++ sep ++ x := by
  induction L with
  | nil => exact absurd rfl hL
  | cons y ys ih =>
    cases ys with
    | nil => rfl
    | cons z zs =>
      rw [show (y :: z :: zs) ++ [x] = y :: ((z :: zs) ++ [x]) from rfl]
      rw [show joinWith sep (y :: (z :: zs ++ [x])) =
        y ++ sep ++ joinWith sep (z :: zs ++ [x]) from by
          cases zs <;> rfl]
      rw [ih (by simp)]
      rw [show joinWith sep (y :: z :: zs) = y ++ sep ++ joinWith sep (z :: zs) from rfl]
      simp [List.append_assoc]

theorem mem_joinWith {c : Char} {sep : List Char} {L : List (List Char)}
    (hc : c ∈ joinWith sep L) : c ∈ sep ∨ ∃ x ∈ L, c ∈ x := by
  induction L with
  | nil => simp [joinWith] at hc
  | cons x xs ih =>
    cases xs with
    | nil =>
      right
      exact ⟨x, List.mem_cons_self x [], hc⟩
    | cons y ys =>
      rw [show joinWith sep (x :: y :: ys) = x ++ sep ++ joinWith sep (y :: ys) from rfl] at hc
      rw [List.mem_append, List.mem_append] at hc
      rcases hc with (hx | hsep) | hrest
      · exact Or.inr ⟨x, List.mem_cons_self x (y :: ys), hx⟩
      · exact Or.inl hsep
      · rcases ih hrest with h | ⟨z, hz, hcz⟩
        · exact Or.inl h
        · exact Or.inr ⟨z, List.mem_cons_of_mem x hz, hcz⟩

/-- `pathSegs` of a well-formed absolute path. -/
theorem pathSegs_abs {L : List (List Char)} (h : ∀ seg ∈ L, NiceSeg seg) :
    pathSegs ⟨'/' :: joinWith ['/'] L⟩ = L.map (fun seg => (⟨seg⟩ : String)) := by
  unfold pathSegs
  rw [show (⟨'/' :: joinWith ['/'] L⟩ : String).data = '/' :: joinWith ['/'] L from rfl]
  rw [splitOnSlash_cons_slash]
  cases hL : L with
  | nil =>
    subst hL
    rfl
  | cons x xs =>
    rw [← hL, splitOnSlash_joinWith (by rw [hL]; simp) (fun seg hs => (h seg hs).2.1)]
    rw [show ([] : List Char) :: L = [[]] ++ L from rfl, List.filter_append]
    rw [show List.filter (fun seg => decide (seg ≠ [])) [[]] = [] from by simp]
    rw [List.nil_append, List.filter_eq_self.mpr (fun seg hs => by
      simpa using (h seg hs).1)]

theorem replaceSlashColon_sep (rest : List Char) :
    replaceSlashColon ('/' :: ':' :: rest) = '/' :: replaceSlashColon rest := by
  rw [replaceSlashColon, if_pos ⟨rfl, rfl⟩]

theorem replaceSlashColon_seg {seg : List Char} (rest : List Char) (h : '/' ∉ seg) :
    replaceSlashColon (seg ++ rest) = seg ++ replaceSlashColon rest := by
  induction seg with
  | nil => rfl
  | cons c cx ih =>
    have hc : c ≠ '/' := fun hc => h (hc ▸ List.mem_cons_self c cx)
    have ih' := ih (fun hm => h (List.mem_cons_of_mem c hm))
    cases hcx : cx ++ rest with
    | nil =>
      have : cx = [] ∧ rest = [] := by
        constructor <;> [exact List.append_eq_nil.mp hcx |>.1;
          exact List.append_eq_nil.mp hcx |>.2]
      rw [this.1, this.2]
      rfl
    | cons d ds =>
      rw [List.cons_append, hcx, replaceSlashColon]
      rw [if_neg (fun hand => hc hand.1), ← hcx, ih']
      rfl

/-- Replacing `/:` by `/` in a `/:`-joined directory string. -/
theorem replaceSlashColon_joined (L : List (List Char))
    (h : ∀ seg ∈ L, '/' ∉ seg) :
    replaceSlashColon (joinWith ['/', ':'] L ++ ['/', ':']) =
      joinWith ['/'] L ++ ['/'] := by
  induction L with
  | nil => rfl
  | cons x xs ih =>
    cases xs with
    | nil =>
      rw [show joinWith ['/', ':'] [x] = x from rfl, show joinWith ['/'] [x] = x from rfl]
      rw [replaceSlashColon_seg _ (h x (List.mem_cons_self x []))]
      rfl
    | cons y ys =>
      have hx : '/' ∉ x := h x (List.mem_cons_self x (y :: ys))
      have ih' := ih (fun seg hs => h seg (List.mem_cons_of_mem x hs))
      rw [joinWith_cons_cons, List.append_assoc, replaceSlashColon_seg _ hx,
        List.append_assoc]
      rw [show (['/', ':'] ++ (joinWith ['/', ':'] (y :: ys) ++ ['/', ':']) : List Char) =
        '/' :: ':' :: (joinWith ['/', ':'] (y :: ys) ++ ['/', ':']) from rfl]
      rw [replaceSlashColon_sep, ih', joinWith_cons_cons]
      simp

theorem trimEndSlashes_append_slash {l : List Char}
    (h : l.getLast? ≠ some '/') : trimEndSlashes (l ++ ['/']) = l := by
  unfold trimEndSlashes
  rw [List.reverse_append]
  rw [show (['/'] : List Char).reverse = ['/'] from rfl]
  rw [show ['/'] ++ l.reverse = '/' :: l.reverse from rfl]
  rw [List.dropWhile_cons, if_pos (by decide)]
  cases hl : l.reverse with
  | nil => simp_all
  | cons c cs =>
    have hc : c ≠ '/' := by
      intro hc
      apply h
      rw [← List.head?_reverse, hl, hc]
      rfl
    rw [List.dropWhile_cons, if_neg (by simpa using hc), ← hl, List.reverse_reverse]

theorem joinWith_ne_nil {sep : List Char} {L : List (List Char)} (hL : L ≠ [])
    (h : ∀ seg ∈ L, seg ≠ []) : joinWith sep L ≠ [] := by
  cases L with
  | nil => exact absurd rfl hL
  | cons x xs =>
    cases xs with
    | nil => exact h x (List.mem_cons_self x [])
    | cons y ys =>
      rw [joinWith_cons_cons]
      simp [h x (List.mem_cons_self x (y :: ys))]

theorem joinWith_slash_getLast {L : List (List Char)} (hL : L ≠ [])
    (h : ∀ seg ∈ L, NiceSeg seg) :
    ('/' :: joinWith ['/'] L).getLast? ≠ some '/' := by
  induction L with
  | nil => exact absurd rfl hL
  | cons x xs ih =>
    cases xs with
    | nil =>
      have hx := h x (List.mem_cons_self x [])
      rw [show joinWith ['/'] [x] = x from rfl]
      rw [show ('/' :: x : List Char) = ['/'] ++ x from rfl,
        List.getLast?_append_of_ne_nil _ hx.1]
      intro hlast
      exact hx.2.1 (List.mem_of_mem_getLast? (by rw [hlast]; rfl))
    | cons y ys =>
      have ih' := ih (by simp) (fun seg hs => h seg (List.mem_cons_of_mem x hs))
      rw [joinWith_cons_cons]
      rw [show ('/' :: (x ++ (['/'] ++ joinWith ['/'] (y :: ys))) : List Char) =
        ('/' :: x) ++ ('/' :: joinWith ['/'] (y :: ys)) from by simp]
      rw [List.getLast?_append_of_ne_nil _ (by simp)]
      exact ih'

theorem stripDots_id {l : List String} (h : ∀ s ∈ l, s ≠ ".") : stripDots l = l := by
  unfold stripDots
  have hd : l.reverse.dropWhile (fun seg => seg = ".") = l.reverse := by
    cases hr : l.reverse with
    | nil => rfl
    | cons a as =>
      rw [List.dropWhile_cons,
        show (decide (a = ".")) = false from by
          simp [h a (List.mem_reverse.mp (by rw [hr]; exact List.mem_cons_self a as))]]
      rfl
  rw [hd, List.reverse_reverse]

theorem pathFileName_abs {L : List (List Char)} {f : List Char}
    (h : ∀ seg ∈ L ++ [f], NiceSeg seg) :
    pathFileName ⟨'/' :: joinWith ['/'] (L ++ [f])⟩ = ⟨f⟩ := by
  unfold pathFileName
  rw [pathSegs_abs h]
  rw [stripDots_id (by
    intro s hs
    obtain ⟨seg, hseg, rfl⟩ := List.mem_map.mp hs
    intro hcontra
    exact (h seg hseg).2.2.2.1 (congrArg String.data hcontra))]
  rw [List.map_append,
    show List.map (fun seg => (⟨seg⟩ : String)) [f] = [(⟨f⟩ : String)] from rfl,
    List.getLast?_concat]
  dsimp only
  rw [if_neg (fun hcontra => (h f (by simp)).2.2.2.2 (congrArg String.data hcontra))]

theorem pathDirStr_abs_cons {L : List (List Char)} (hL : L ≠ []) {f : List Char}
    (h : ∀ seg ∈ L ++ [f], NiceSeg seg) :
    pathDirStr ⟨'/' :: joinWith ['/'] (L ++ [f])⟩ =
      "/" ++ joinStrings "/" (L.map (fun seg => (⟨seg⟩ : String))) := by
  have hnodot : ∀ s ∈ (L ++ [f]).map (fun seg => (⟨seg⟩ : String)), s ≠ "." := by
    intro s hs
    obtain ⟨seg, hseg, rfl⟩ := List.mem_map.mp hs
    intro hcontra
    exact (h seg hseg).2.2.2.1 (congrArg String.data hcontra)
  unfold pathDirStr
  rw [pathSegs_abs h, stripDots_id hnodot]
  dsimp only
  obtain ⟨x, xs, rfl⟩ := List.exists_cons_of_ne_nil hL
  rw [List.map_append, List.map_cons,
    show List.map (fun seg => (⟨seg⟩ : String)) [f] = [(⟨f⟩ : String)] from rfl,
    List.cons_append]
  obtain ⟨d, ds, hds⟩ := List.exists_cons_of_ne_nil
    (show (xs.map (fun seg => (⟨seg⟩ : String))) ++
      [(⟨f⟩ : String)] ≠ [] from by simp)
  rw [hds]
  dsimp only
  rw [← hds, ← List.cons_append, List.dropLast_concat]
  rw [stripDots_id (fun s hs => hnodot s (by
    rw [List.map_append]
    exact List.mem_append.mpr (Or.inl hs)))]
  cases hxs : xs.map (fun seg => (⟨seg⟩ : String)) with
  | nil =>
    dsimp only
    rw [show ((⟨'/' :: joinWith ['/'] ((x :: xs) ++ [f])⟩ : String)).data.head? =
      some '/' from rfl, if_pos rfl]
  | cons z zs =>
    dsimp only
    rw [show ((⟨'/' :: joinWith ['/'] ((x :: xs) ++ [f])⟩ : String)).data.head? =
      some '/' from rfl, if_pos rfl]

/-- Sanity check of the `std::path` component normalization in the model:
`file_name` is `None` after a trailing `..` and skips a trailing `.`,
`parent` of `/Music/.` is `/` and of `/Music/..` is `/Music`; consequently
the path round trip genuinely fails on paths ending in `.` or `..`, as it
does in the source. -/
theorem pathDotComponents :
    pathFileName "/Music/.." = "" ∧ pathFileName "/Music/." = "Music" ∧
    pathDirStr "/Music/." = "/" ∧ pathDirStr "/Music/.." = "/Music" ∧
    ¬PathRoundTripOK "/Music/.." ∧ ¬PathRoundTripOK "/Music/." := by
  refine ⟨rfl, rfl, rfl, rfl, fun h => ?_, fun h => ?_⟩
  · exact absurd h.2.1 (by decide)
  · exact absurd h.2.1 (by decide)

theorem str_data_inj {a b : String} (h : a.data = b.data) : a = b := by
  cases a
  cases b
  exact congrArg String.mk h

theorem empty_append_str (x : String) : "" ++ x = x := by
  apply str_data_inj
  show [] ++ x.data = x.data
  rw [List.nil_append]

/-- Passing an empty volume string behaves like passing no volume. -/
theorem map_traktor_path_to_system_empty_volume (d f : String) :
    map_traktor_path_to_system d f (some "") = map_traktor_path_to_system d f none := by
  unfold map_traktor_path_to_system
  dsimp only
  rw [empty_append_str]

/-- Claim C2 (amended): for absolute Unix-style paths built from well-formed
segments (non-empty, no separators, no backslashes) whose second character is
not `':'` (no drive-letter-shaped prefix), converting to Traktor form
extracts an empty volume and converting the resulting triple back reproduces
the original path exactly, whether the empty volume is passed along or not. -/
theorem C2_path_round_trip (segsData : List (List Char)) (fileData : List Char)
    (hsegs : ∀ seg ∈ segsData, NiceSeg seg) (hfile : NiceSeg fileData)
    (hdrive : ('/' :: joinWith ['/'] (segsData ++ [fileData])).get? 1 ≠ some ':') :
    PathRoundTripOK ⟨'/' :: joinWith ['/'] (segsData ++ [fileData])⟩ := by
  have hall : ∀ seg ∈ segsData ++ [fileData], NiceSeg seg := by
    intro seg hs
    rcases List.mem_append.mp hs with h | h
    · exact hsegs seg h
    · rw [List.mem_singleton.mp h]
      exact hfile
  have hnb : '\\' ∉ ('/' :: joinWith ['/'] (segsData ++ [fileData])) := by
    intro hmem
    rcases List.mem_cons.mp hmem with h | h
    · simp at h
    · rcases mem_joinWith h with hsep | ⟨x, hx, hcx⟩
      · simp at hsep
      · exact (hall x hx).2.2.1 hcx
  have hnorm : ('/' :: joinWith ['/'] (segsData ++ [fileData])).map
      (fun c => if c = '\\' then '/' else c) =
      '/' :: joinWith ['/'] (segsData ++ [fileData]) := by
    refine (List.map_congr_left fun c hc => ?_).trans (List.map_id _)
    exact if_neg (fun h : c = '\\' => hnb (h ▸ hc))
  have hvolneg : ¬(2 ≤ ('/' :: joinWith ['/'] (segsData ++ [fileData])).length ∧
      ('/' :: joinWith ['/'] (segsData ++ [fileData])).get? 1 = some ':') :=
    fun hand => hdrive hand.2
  cases segsData with
  | nil =>
    have hmsp : map_system_path_to_traktor ⟨'/' :: joinWith ['/'] ([] ++ [fileData])⟩ =
        ("/:", ⟨fileData⟩, "") := by
      have hdir : pathDirStr ⟨'/' :: joinWith ['/'] ([] ++ [fileData])⟩ = "/" := by
        unfold pathDirStr
        rw [pathSegs_abs hall,
          show List.map (fun seg => (⟨seg⟩ : String)) ([] ++ [fileData]) =
            [(⟨fileData⟩ : String)] from rfl]
        rw [stripDots_id (by
          intro s hs
          rw [List.mem_singleton] at hs
          subst hs
          intro hcontra
          exact hfile.2.2.2.1 (congrArg String.data hcontra))]
        dsimp only
        rw [show ((⟨'/' :: joinWith ['/'] ([] ++ [fileData])⟩ : String)).data.head? =
          some '/' from rfl, if_pos rfl]
      unfold map_system_path_to_traktor
      dsimp only
      rw [hnorm, if_neg hvolneg, pathFileName_abs hall, hdir]
      rw [if_pos (Or.inl rfl)]
    refine ⟨by rw [hmsp], ?_, ?_⟩
    · rw [hmsp]
      rfl
    · rw [hmsp, map_traktor_path_to_system_empty_volume]
      rfl
  | cons s0 srest =>
    have hLne : (s0 :: srest : List (List Char)) ≠ [] := by simp
    have hmapid : ((s0 :: srest).map (fun seg => (⟨seg⟩ : String))).map String.data =
        s0 :: srest := by
      rw [List.map_map]
      exact (List.map_congr_left fun seg _ => rfl).trans (List.map_id _)
    have hdirdata : ("/" ++ joinStrings "/" ((s0 :: srest).map
        (fun seg => (⟨seg⟩ : String)))).data = '/' :: joinWith ['/'] (s0 :: srest) := by
      show '/' :: joinWith "/".data (((s0 :: srest).map (fun seg => (⟨seg⟩ : String))).map
        (fun t => t.data)) = '/' :: joinWith ['/'] (s0 :: srest)
      rw [show ((fun t => t.data) : String → List Char) = String.data from rfl, hmapid]
    have hdireq : ("/" ++ joinStrings "/" ((s0 :: srest).map
        (fun seg => (⟨seg⟩ : String)))) = ⟨'/' :: joinWith ['/'] (s0 :: srest)⟩ :=
      str_data_inj (by rw [hdirdata])
    have hjoin_ne : joinWith ['/'] (s0 :: srest) ≠ [] :=
      joinWith_ne_nil hLne (fun seg hs => (hsegs seg hs).1)
    have hdir_ne1 : ("/" ++ joinStrings "/" ((s0 :: srest).map
        (fun seg => (⟨seg⟩ : String)))) ≠ "/" := by
      intro h
      have := congrArg String.data h
      rw [hdirdata] at this
      exact hjoin_ne (by simpa using this)
    have hdir_ne2 : ("/" ++ joinStrings "/" ((s0 :: srest).map
        (fun seg => (⟨seg⟩ : String)))) ≠ "" := by
      intro h
      have := congrArg String.data h
      rw [hdirdata] at this
      simp at this
    have hmsp : map_system_path_to_traktor ⟨'/' :: joinWith ['/'] ((s0 :: srest) ++ [fileData])⟩ =
        ("/:" ++ joinStrings "/:" ((s0 :: srest).map (fun seg => (⟨seg⟩ : String))) ++ "/:",
          ⟨fileData⟩, "") := by
      unfold map_system_path_to_traktor
      dsimp only
      rw [hnorm, if_neg hvolneg, pathFileName_abs hall, pathDirStr_abs_cons hLne hall]
      rw [if_neg (not_or.mpr ⟨hdir_ne1, hdir_ne2⟩)]
      rw [hdireq, pathSegs_abs hsegs]
    have hback : map_traktor_path_to_system
        ("/:" ++ joinStrings "/:" ((s0 :: srest).map (fun seg => (⟨seg⟩ : String))) ++ "/:")
        ⟨fileData⟩ none = ⟨'/' :: joinWith ['/'] ((s0 :: srest) ++ [fileData])⟩ := by
      have hd : ("/:" ++ joinStrings "/:" ((s0 :: srest).map (fun seg => (⟨seg⟩ : String)))
          ++ "/:").data = '/' :: ':' :: (joinWith ['/', ':'] (s0 :: srest) ++ ['/', ':']) := by
        show (['/', ':'] ++ joinWith "/:".data (((s0 :: srest).map
          (fun seg => (⟨seg⟩ : String))).map (fun t => t.data))) ++ ['/', ':'] = _
        rw [show ((fun t => t.data) : String → List Char) = String.data from rfl, hmapid]
        rw [show ("/:".data : List Char) = ['/', ':'] from rfl]
        simp
      unfold map_traktor_path_to_system
      dsimp only
      rw [hd, replaceSlashColon_sep,
        replaceSlashColon_joined (s0 :: srest) (fun seg hs => (hsegs seg hs).2.1)]
      rw [show ('/' :: (joinWith ['/'] (s0 :: srest) ++ ['/']) : List Char) =
        ('/' :: joinWith ['/'] (s0 :: srest)) ++ ['/'] from by simp]
      rw [trimEndSlashes_append_slash (joinWith_slash_getLast hLne hsegs)]
      apply str_data_inj
      show (('/' :: joinWith ['/'] (s0 :: srest)) ++ ['/']) ++ fileData =
        '/' :: joinWith ['/'] ((s0 :: srest) ++ [fileData])
      rw [joinWith_append_single _ fileData hLne]
      simp
    refine ⟨by rw [hmsp], ?_, ?_⟩
    · rw [hmsp]
      exact hback
    · rw [hmsp, map_traktor_path_to_system_empty_volume]
      exact hback

theorem C2_path_round_trip_witness :
    PathRoundTripOK ⟨'/' :: joinWith ['/']
      ([['M', 'u', 's', 'i', 'c']] ++ [['t', 'e', 's', 't', '.', 'm', 'p', '3']])⟩ :=
  C2_path_round_trip [['M', 'u', 's', 'i', 'c']] ['t', 'e', 's', 't', '.', 'm', 'p', '3']
    (by
      intro seg hs
      rw [List.mem_singleton] at hs
      subst hs
      exact ⟨by decide, by decide, by decide, by decide, by decide⟩)
    ⟨by decide, by decide, by decide, by decide, by decide⟩ (by decide)

/-- Claim C2, as stated, is false for drive-letter paths: the volume is
extracted but also left inside the directory segments, so converting the
triple back duplicates it ("C:/Users/a.mp3" comes back as
"C:/C:/Users/a.mp3" with the volume, "/C:/Users/a.mp3" without). -/
theorem C2_path_round_trip_counterexample :
    map_traktor_path_to_system (map_system_path_to_traktor "C:/Users/a.mp3").1
        (map_system_path_to_traktor "C:/Users/a.mp3").2.1
        (some (map_system_path_to_traktor "C:/Users/a.mp3").2.2) ≠ "C:/Users/a.mp3" ∧
    map_traktor_path_to_system (map_system_path_to_traktor "C:/Users/a.mp3").1
        (map_system_path_to_traktor "C:/Users/a.mp3").2.1 none ≠ "C:/Users/a.mp3" := by
  decide

theorem fwd_cue_type (t : TraktorCue) (tid : String) :
    (map_traktor_cue_to_harmony t tid).cue_type = map_traktor_cue_type t.cue_type := by
  unfold map_traktor_cue_to_harmony
  dsimp only
  (repeat' split) <;> rfl

theorem fwd_position (t : TraktorCue) (tid : String) :
    (map_traktor_cue_to_harmony t tid).position_ms = (parseDecimal t.start).getD 0 := by
  unfold map_traktor_cue_to_harmony
  dsimp only
  (repeat' split) <;> rfl

theorem fwd_hotcue (t : TraktorCue) (tid : String) :
    (map_traktor_cue_to_harmony t tid).hotcue_slot = t.hotcue.bind parseI32 := by
  unfold map_traktor_cue_to_harmony
  dsimp only
  (repeat' split) <;> rfl

theorem fwd_order (t : TraktorCue) (tid : String) :
    (map_traktor_cue_to_harmony t tid).order = t.displ_order.bind parseI32 := by
  unfold map_traktor_cue_to_harmony
  dsimp only
  (repeat' split) <;> simp_all

theorem fwd_length (t : TraktorCue) (tid : String) :
    (map_traktor_cue_to_harmony t tid).length_ms =
      (match t.len with
       | some s =>
         (match parseDecimal s with
          | some l => if 0 < l then some l else none
          | none => none)
       | none => none) := by
  unfold map_traktor_cue_to_harmony
  dsimp only
  (repeat' split) <;> simp_all

theorem fwd_name (t : TraktorCue) (tid : String) :
    (map_traktor_cue_to_harmony t tid).name =
      (if map_traktor_cue_type t.cue_type = CueType.Grid then
        match t.grid with
        | some g => some ("Grid " ++ g.bpm)
        | none => cueBaseName t.name
      else cueBaseName t.name) := by
  unfold map_traktor_cue_to_harmony cueBaseName
  dsimp only
  (repeat' split) <;> simp_all

theorem rev_cue_type (c : CuePoint) :
    (map_harmony_cue_to_traktor c).cue_type = map_harmony_cue_type c.cue_type := by
  unfold map_harmony_cue_to_traktor
  dsimp only
  (repeat' split) <;> rfl

theorem rev_start (c : CuePoint) :
    (map_harmony_cue_to_traktor c).start = fmt6 c.position_ms := by
  unfold map_harmony_cue_to_traktor
  dsimp only
  (repeat' split) <;> rfl

theorem rev_len (c : CuePoint) :
    (map_harmony_cue_to_traktor c).len = c.length_ms.map fmt6 := by
  unfold map_harmony_cue_to_traktor
  dsimp only
  (repeat' split) <;> rfl

theorem rev_hotcue (c : CuePoint) :
    (map_harmony_cue_to_traktor c).hotcue = c.hotcue_slot.map intStr := by
  unfold map_harmony_cue_to_traktor
  dsimp only
  (repeat' split) <;> rfl

theorem rev_displ_order (c : CuePoint) :
    (map_harmony_cue_to_traktor c).displ_order = c.order.map intStr := by
  unfold map_harmony_cue_to_traktor
  dsimp only
  (repeat' split) <;> rfl

theorem rev_name (c : CuePoint) :
    (map_harmony_cue_to_traktor c).name = c.name := by
  unfold map_harmony_cue_to_traktor
  dsimp only
  (repeat' split) <;> rfl

theorem rev_grid (c : CuePoint) :
    (map_harmony_cue_to_traktor c).grid =
      (if c.cue_type = CueType.Grid then
        match c.name with
        | some n =>
          (match stripGrid n with
           | some b => some { bpm := b }
           | none => none)
        | none => none
      else none) := by
  unfold map_harmony_cue_to_traktor
  dsimp only
  (repeat' split) <;> simp_all

theorem stripGrid_append (s : String) : stripGrid ("Grid " ++ s) = some s := by
  have hdata : ("Grid " ++ s).data = 'G' :: 'r' :: 'i' :: 'd' :: ' ' :: s.data := rfl
  unfold stripGrid
  rw [hdata]
  rfl

/-- Claim C3 (amended): for Traktor cue markers of type HotCue ("0"),
Grid ("4") or Loop ("5") whose start parses, whose length is absent or
parses to a positive value, whose hotcue slot and display order are absent
or canonical `i32` renderings, and whose name is absent or neither the
`"n.n."` placeholder nor blank, the forward/backward conversion reproduces
the type code, hotcue slot and display order exactly; the name exactly —
except for Grid markers with a nested grid element, whose name becomes
`"Grid {bpm}"` while the grid element itself is reconstructed exactly — and
position and length within the `1e-3` tolerance. -/
theorem C3_cue_round_trip (t : TraktorCue) (tid : String) (p : Rat)
    (htype : t.cue_type = "0" ∨ t.cue_type = "4" ∨ t.cue_type = "5")
    (hstart : parseDecimal t.start = some p)
    (hlen : t.len = none ∨ ∃ s l, t.len = some s ∧ parseDecimal s = some l ∧ 0 < l)
    (hhot : t.hotcue = none ∨
      ∃ k : Int, t.hotcue = some (intStr k) ∧ -(2 ^ 31) ≤ k ∧ k < 2 ^ 31)
    (hord : t.displ_order = none ∨
      ∃ k : Int, t.displ_order = some (intStr k) ∧ -(2 ^ 31) ≤ k ∧ k < 2 ^ 31)
    (hname : t.name = none ∨
      ∃ s, t.name = some s ∧ s ≠ "n.n." ∧ (strTrim s).data.isEmpty = false) :
    CueRoundTripOK t tid p := by
  have hbase : cueBaseName t.name = t.name := by
    rcases hname with h | ⟨s, h, h1, h2⟩ <;> rw [h]
    · rfl
    · show (if s ≠ "n.n." ∧ (strTrim s).data.isEmpty = false then some s else none) = some s
      rw [if_pos ⟨h1, h2⟩]
  unfold CueRoundTripOK
  refine ⟨?_, ?_, ?_, ?_, ?_, ?_⟩
  · rw [rev_cue_type, fwd_cue_type]
    rcases htype with h | h | h <;> rw [h] <;> rfl
  · rw [rev_hotcue, fwd_hotcue]
    rcases hhot with h | ⟨k, h, hk1, hk2⟩ <;> rw [h]
    · rfl
    · rw [Option.some_bind, parseI32_intStr hk1 hk2, Option.map_some']
  · rw [rev_displ_order, fwd_order]
    rcases hord with h | ⟨k, h, hk1, hk2⟩ <;> rw [h]
    · rfl
    · rw [Option.some_bind, parseI32_intStr hk1 hk2, Option.map_some']
  · rcases htype with h | h | h
    · rw [h, if_neg (by decide), rev_name, fwd_name, h]
      rw [if_neg (by decide), hbase]
    · rw [h, if_pos rfl]
      cases hg : t.grid with
      | some g =>
        have hn : (map_traktor_cue_to_harmony t tid).name = some ("Grid " ++ g.bpm) := by
          rw [fwd_name, h, if_pos (by rfl), hg]
        refine ⟨by rw [rev_name, hn], ?_⟩
        rw [rev_grid, fwd_cue_type, h]
        rw [if_pos (by rfl), hn]
        dsimp only
        rw [stripGrid_append]
      | none =>
        rw [rev_name, fwd_name, h, if_pos (by rfl), hg, hbase]
    · rw [h, if_neg (by decide), rev_name, fwd_name, h]
      rw [if_neg (by decide), hbase]
  · rw [rev_start, fwd_position, hstart]
    exact ⟨_, parseDecimal_fmt6 p, fmt6_value_close p⟩
  · rcases hlen with h | ⟨s, l, h, hp, hpos⟩ <;> rw [h]
    · rw [rev_len, fwd_length, h]
      rfl
    · have hl : (map_traktor_cue_to_harmony t tid).length_ms = some l := by
        rw [fwd_length, h]
        dsimp only
        rw [hp]
        dsimp only
        rw [if_pos hpos]
      refine ⟨l, _, hp, ?_, parseDecimal_fmt6 l, fmt6_value_close l⟩
      rw [rev_len, hl, Option.map_some']

unseal Rat.add Rat.mul Rat.inv Rat.sub in
theorem C3_cue_round_trip_witness :
    CueRoundTripOK c3GridCue "track-1" (123456789 / 10000 : ℚ) :=
  C3_cue_round_trip c3GridCue "track-1" (123456789 / 10000 : ℚ)
    (Or.inr (Or.inl rfl)) (by decide) (Or.inl rfl) (Or.inl rfl)
    (Or.inr ⟨1, by decide, by decide, by decide⟩)
    (Or.inr ⟨"AutoGrid", rfl, by decide, by decide⟩)

/-- Claim C3, as stated, is false: the grid marker `c3GridCue` (name
`"AutoGrid"`, nested grid bpm `"128.00"`) does not get its name back — the
round trip returns `"Grid 128.00"` instead. -/
theorem C3_cue_round_trip_counterexample :
    (map_harmony_cue_to_traktor (map_traktor_cue_to_harmony c3GridCue "track-1")).name ≠
      c3GridCue.name := by decide

theorem C10_merge_cue_points_rewrite_witness :
    (merge_cue_points [] c5TraktorCues "track-9" .SmartMerge).merged =
        c5TraktorCues.map (fun c => { c with track_id := "track-9" }) ∧
    (merge_cue_points [] c5TraktorCues "track-9" .SmartMerge).merged.length =
        c5TraktorCues.length :=
  C10_merge_cue_points_rewrite.1 [] c5TraktorCues "track-9" rfl

/-! ## Theorems: track identity (claim C7) -/

set_option maxRecDepth 100000 in
/-- Sanity check of the SHA-256 embedding against the FIPS 180-4 test
vector for `"abc"`. -/
theorem sha256hex_abc :
    sha256hex [97, 98, 99] =
      "ba7816bf8f01cfea414140de5dae2223b00361a396177a9cb410ff61f20015ad" := by
  decide

/-- Claim C7: the track id is a deterministic function of the case-folded
path — paths equal after lowercasing hash to the same id — and the Traktor
entry mapper derives its id by applying the same `Track.generate_id` to the
translated location path. -/
theorem C7_track_id_function (p q : String) (e : TraktorEntry)
    (h : strToLower p = strToLower q) :
    Track.generate_id p = Track.generate_id q ∧
    (map_traktor_entry_to_track e).id =
      Track.generate_id (map_traktor_path_to_system e.location.dir e.location.file
        e.location.volume) := by
  constructor
  · unfold Track.generate_id
    rw [h]
  · rfl

theorem C7_track_id_function_witness :
    strToLower "/Music/A.MP3" = strToLower "/music/a.mp3" ∧
    (Track.generate_id "/Music/A.MP3" = Track.generate_id "/music/a.mp3" ∧
      (map_traktor_entry_to_track c7Entry).id =
        Track.generate_id (map_traktor_path_to_system c7Entry.location.dir
          c7Entry.location.file c7Entry.location.volume)) :=
  ⟨by decide, C7_track_id_function "/Music/A.MP3" "/music/a.mp3" c7Entry (by decide)⟩

/-! ## Theorems: playlist flattening (claim C9) -/

theorem joinStrings_singleton (x : String) : joinStrings "/" [x] = x := by
  cases x
  rfl

theorem joinStrings_append_single (xs : List String) (x : String) (h : xs ≠ []) :
    joinStrings "/" (xs ++ [x]) = joinStrings "/" xs ++ "/" ++ x := by
  apply str_data_inj
  show joinWith ['/'] ((xs ++ [x]).map String.data) =
    ((joinWith ['/'] (xs.map String.data) ++ ['/']) ++ x.data)
  rw [List.map_append, show List.map String.data [x] = [x.data] from rfl]
  rw [joinWith_append_single ['/'] x.data (by simpa using h)]

theorem currentPath_eq (names : List String) (name : String) :
    (match parentOpt names with
     | some parent => parent ++ "/" ++ name
     | none => "/" ++ name) = ancestorPath (names ++ [name]) := by
  cases names with
  | nil =>
    show "/" ++ name = "/" ++ joinStrings "/" [name]
    rw [joinStrings_singleton]
  | cons n ns =>
    show ("/" ++ joinStrings "/" (n :: ns)) ++ "/" ++ name =
      "/" ++ joinStrings "/" ((n :: ns) ++ [name])
    rw [joinStrings_append_single (n :: ns) name (by simp)]
    apply str_data_inj
    simp [String.data_append]

theorem parentOpt_append_single (names : List String) (name : String) :
    parentOpt (names ++ [name]) = some (ancestorPath (names ++ [name])) := by
  cases names <;> rfl

theorem folderTreeNode_sizeOf_lb (t : FolderTreeNode) : 0 < sizeOf t := by
  cases t
  simp

theorem flatten_eq_spec_bounded :
    ∀ n : Nat, ∀ t : FolderTreeNode, sizeOf t ≤ n → ∀ names : List String,
      flatten_playlist_tree t (parentOpt names) = specFlatten names t := by
  intro n
  induction n with
  | zero => intro t ht; exact absurd ht (by have := folderTreeNode_sizeOf_lb t; omega)
  | succ n ih =>
    intro t ht names
    cases t with
    | mk name is_folder playlist children =>
      show flatten_playlist_tree (.mk name is_folder playlist children) (parentOpt names) =
        specFlatten names (.mk name is_folder playlist children)
      unfold flatten_playlist_tree specFlatten
      dsimp only
      rw [currentPath_eq names name]
      have hkids : ∀ cs : List FolderTreeNode, (∀ c ∈ cs, sizeOf c ≤ n) →
          flattenChildren cs (ancestorPath (names ++ [name])) =
            specFlattenList (names ++ [name]) cs := by
        intro cs
        induction cs with
        | nil => intro _; rfl
        | cons c cs ihc =>
          intro hsz
          show flatten_playlist_tree c (some (ancestorPath (names ++ [name]))) ++
              flattenChildren cs (ancestorPath (names ++ [name])) =
            specFlatten (names ++ [name]) c ++ specFlattenList (names ++ [name]) cs
          rw [← parentOpt_append_single, ih c (hsz c (List.mem_cons_self c cs)) (names ++ [name]),
            ihc (fun x hx => hsz x (List.mem_cons_of_mem c hx))]
      rw [hkids children (fun c hc => by
        have h1 := List.sizeOf_lt_of_mem hc
        have h2 : sizeOf (FolderTreeNode.mk name is_folder playlist children) ≤ n + 1 := ht
        simp at h2
        omega)]
      cases names <;> rfl

/-- Claim C9: `flatten_playlist_tree` agrees on every tree with the
spec-side flattening — depth-first document order, each playlist's
`folder_path` spelled from its ancestor folder names from the root, with
root-level playlists receiving the root's own path — and on the §8 scenario
tree (root → House → Deep House, sibling playlist Techno) it yields exactly
the two playlists, in document order, with folder paths `"/$ROOT/House"`
and `"/$ROOT"`. -/
theorem C9_playlist_flattening :
    (∀ (t : FolderTreeNode) (names : List String),
      flatten_playlist_tree t (parentOpt names) = specFlatten names t) ∧
    flatten_playlist_tree c9Tree none =
      [{ c9DeepHouse with folder_path := some "/$ROOT/House" },
       { c9Techno with folder_path := some "/$ROOT" }] := by
  constructor
  · intro t names
    exact flatten_eq_spec_bounded (sizeOf t) t le_rfl names
  · decide

/-! ## Theorems: sync idempotence (claim C1) — infrastructure -/

theorem track_set_added_at {u : Track} {v : Option Int} (h : u.added_at = v) :
    ({ u with added_at := v } : Track) = u := by
  cases u
  cases h
  rfl

theorem pairwise_attr_eq {α β : Type} (f : α → β) {l : List α}
    (hp : l.Pairwise (fun a b => f a ≠ f b)) {a b : α} (ha : a ∈ l) (hb : b ∈ l)
    (hf : f a = f b) : a = b := by
  induction l with
  | nil => simp at ha
  | cons x xs ih =>
    have hhead := (List.pairwise_cons.mp hp).1
    have htail := (List.pairwise_cons.mp hp).2
    rcases List.mem_cons.mp ha with rfl | hamem
    · rcases List.mem_cons.mp hb with rfl | hbmem
      · rfl
      · exact absurd hf (hhead b hbmem)
    · rcases List.mem_cons.mp hb with rfl | hbmem
      · exact absurd hf.symm (hhead a hamem)
      · exact ih htail hamem hbmem

theorem find?_append_some {α : Type} (p : α → Bool) {l1 : List α} (l2 : List α) {a : α}
    (h : l1.find? p = some a) : (l1 ++ l2).find? p = some a := by
  induction l1 with
  | nil => simp at h
  | cons x xs ih =>
    by_cases hp : p x
    · simp only [List.find?_cons, hp, List.cons_append] at h ⊢
      exact h
    · simp only [List.find?_cons, Bool.not_eq_true] at hp
      simp only [List.find?_cons, hp, List.cons_append] at h ⊢
      exact ih h

theorem find?_append_none {α : Type} (p : α → Bool) {l1 : List α} (l2 : List α)
    (h : l1.find? p = none) : (l1 ++ l2).find? p = l2.find? p := by
  induction l1 with
  | nil => rfl
  | cons x xs ih =>
    by_cases hp : p x
    · simp [List.find?_cons, hp] at h
    · simp only [List.find?_cons, Bool.not_eq_true] at hp
      simp only [List.find?_cons, hp, List.cons_append] at h ⊢
      exact ih h

theorem find?_path_self {l : List Track} (hp : l.Pairwise (fun a b => a.path ≠ b.path))
    {t : Track} (ht : t ∈ l) : l.find? (fun r => r.path = t.path) = some t := by
  induction l with
  | nil => simp at ht
  | cons x xs ih =>
    rcases List.mem_cons.mp ht with rfl | hmem
    · simp [List.find?_cons]
    · have hx : x.path ≠ t.path := (List.pairwise_cons.mp hp).1 t hmem
      simp only [List.find?_cons]
      rw [show decide (x.path = t.path) = false from by simp [hx]]
      exact ih (List.pairwise_cons.mp hp).2 hmem

theorem applyUpd_step (us : List Track) (u r : Track) :
    applyUpd (u :: us) r =
      applyUpd us (if r.id = u.id then { u with added_at := r.added_at } else r) := rfl

theorem applyUpd_not_mem {us : List Track} {r : Track} (h : ∀ u ∈ us, u.id ≠ r.id) :
    applyUpd us r = r := by
  induction us with
  | nil => rfl
  | cons u us ih =>
    rw [applyUpd_step,
      if_neg (fun hh => h u (List.mem_cons_self u us) (by rw [hh]))]
    exact ih (fun u' hu' => h u' (List.mem_cons_of_mem u hu'))

theorem applyUpd_fix {us : List Track} {r : Track} (h : ∀ u ∈ us, u.id = r.id → u = r) :
    applyUpd us r = r := by
  induction us with
  | nil => rfl
  | cons u us ih =>
    rw [applyUpd_step]
    by_cases hc : r.id = u.id
    · have hu : u = r := h u (List.mem_cons_self u us) hc.symm
      subst hu
      rw [if_pos hc, track_set_added_at rfl]
      exact ih (fun u' hu' => h u' (List.mem_cons_of_mem u hu'))
    · rw [if_neg hc]
      exact ih (fun u' hu' => h u' (List.mem_cons_of_mem u hu'))

theorem applyUpd_unique {us : List Track} {r u0 : Track} (hmem : u0 ∈ us)
    (hid : u0.id = r.id) (hadd : u0.added_at = r.added_at)
    (huniq : ∀ u ∈ us, u.id = r.id → u = u0) : applyUpd us r = u0 := by
  induction us with
  | nil => simp at hmem
  | cons u us ih =>
    rw [applyUpd_step]
    by_cases hc : r.id = u.id
    · have hu : u = u0 := huniq u (List.mem_cons_self u us) hc.symm
      subst hu
      rw [if_pos hc, track_set_added_at hadd]
      exact applyUpd_fix (fun u' hu' hid' =>
        huniq u' (List.mem_cons_of_mem u hu') (by rw [hid', hid]))
    · rw [if_neg hc]
      have hu0us : u0 ∈ us := by
        rcases List.mem_cons.mp hmem with rfl | hm
        · exact absurd hid.symm hc
        · exact hm
      exact ih hu0us (fun u' hu' => huniq u' (List.mem_cons_of_mem u hu'))

theorem merge_track_merged_frame (h t : Track) (ms : MergeStrategy) :
    (merge_track h t ms).merged.id = h.id ∧ (merge_track h t ms).merged.path = h.path ∧
    (merge_track h t ms).merged.added_at = h.added_at := by
  cases ms <;> exact ⟨rfl, rfl, rfl⟩

theorem merge_track_no_changes (h t : Track)
    (e1 : (mergeFieldValue .SmartMerge trimEmpty h.title t.title).2 = false)
    (e2 : (mergeFieldValue .SmartMerge is_string_empty h.artist t.artist).2 = false)
    (e3 : (mergeFieldValue .SmartMerge is_string_empty h.album t.album).2 = false)
    (e4 : (mergeFieldValue .SmartMerge is_string_empty h.genre t.genre).2 = false)
    (e5 : (mergeFieldValue .SmartMerge is_int_empty h.year t.year).2 = false)
    (e6 : (mergeFieldValue .SmartMerge is_int_empty h.bpm t.bpm).2 = false)
    (e7 : (mergeFieldValue .SmartMerge is_string_empty h.initial_key t.initial_key).2 = false)
    (e8 : (mergeFieldValue .SmartMerge Option.isNone h.rating t.rating).2 = false)
    (e9 : (mergeFieldValue .SmartMerge is_string_empty h.comment t.comment).2 = false)
    (e10 : (mergeFieldValue .SmartMerge is_int_empty h.bitrate t.bitrate).2 = false)
    (e11 : (mergeFieldValue .SmartMerge is_string_empty h.label t.label).2 = false) :
    (merge_track h t .SmartMerge).has_changes = false := by
  unfold merge_track
  rw [if_neg (by decide : ¬(MergeStrategy.SmartMerge = MergeStrategy.HarmonyWins))]
  dsimp only
  rw [e1, e2, e3, e4, e5, e6, e7, e8, e9, e10, e11]
  simp

theorem merge_track_smart_idem (h t : Track) :
    (merge_track (merge_track h t .SmartMerge).merged t .SmartMerge).has_changes = false :=
  merge_track_no_changes _ t
    (mergeFieldValue_smart_idem trimEmpty h.title t.title)
    (mergeFieldValue_smart_idem is_string_empty h.artist t.artist)
    (mergeFieldValue_smart_idem is_string_empty h.album t.album)
    (mergeFieldValue_smart_idem is_string_empty h.genre t.genre)
    (mergeFieldValue_smart_idem is_int_empty h.year t.year)
    (mergeFieldValue_smart_idem is_int_empty h.bpm t.bpm)
    (mergeFieldValue_smart_idem is_string_empty h.initial_key t.initial_key)
    (mergeFieldValue_smart_idem Option.isNone h.rating t.rating)
    (mergeFieldValue_smart_idem is_string_empty h.comment t.comment)
    (mergeFieldValue_smart_idem is_int_empty h.bitrate t.bitrate)
    (mergeFieldValue_smart_idem is_string_empty h.label t.label)

theorem merge_track_smart_self (t : Track) :
    (merge_track t t .SmartMerge).has_changes = false :=
  merge_track_no_changes t t
    (mergeFieldValue_smart_self trimEmpty t.title)
    (mergeFieldValue_smart_self is_string_empty t.artist)
    (mergeFieldValue_smart_self is_string_empty t.album)
    (mergeFieldValue_smart_self is_string_empty t.genre)
    (mergeFieldValue_smart_self is_int_empty t.year)
    (mergeFieldValue_smart_self is_int_empty t.bpm)
    (mergeFieldValue_smart_self is_string_empty t.initial_key)
    (mergeFieldValue_smart_self Option.isNone t.rating)
    (mergeFieldValue_smart_self is_string_empty t.comment)
    (mergeFieldValue_smart_self is_int_empty t.bitrate)
    (mergeFieldValue_smart_self is_string_empty t.label)

theorem assoc_fold_fresh :
    ∀ (rows : List Track) (m : List (String × Track)),
      (∀ t ∈ rows, ∀ q ∈ m, q.1 ≠ t.path) →
      rows.Pairwise (fun a b => a.path ≠ b.path) →
      rows.foldl (fun m t => assocInsert m t.path t) m =
        m ++ rows.map (fun t => (t.path, t)) := by
  intro rows
  induction rows with
  | nil => intro m _ _; simp
  | cons r rows ih =>
    intro m hm hp
    rw [List.foldl_cons]
    have hany : m.any (fun p => p.1 = r.path) = false := by
      rw [List.any_eq_false]
      intro q hq
      simp [hm r (List.mem_cons_self r rows) q hq]
    have hins : assocInsert m r.path r = m ++ [(r.path, r)] := by
      unfold assocInsert
      rw [hany]
      rfl
    rw [hins, ih (m ++ [(r.path, r)]) ?_ (List.pairwise_cons.mp hp).2]
    · simp
    · intro t ht q hq
      rcases List.mem_append.mp hq with hq1 | hq2
      · exact hm t (List.mem_cons_of_mem r ht) q hq1
      · rw [List.mem_singleton.mp hq2]
        exact (List.pairwise_cons.mp hp).1 t ht

theorem assocGet_map_tracks (rows : List Track) (p : String) :
    assocGet (rows.map (fun t => (t.path, t))) p = rows.find? (fun r => r.path = p) := by
  induction rows with
  | nil => rfl
  | cons r rows ih =>
    unfold assocGet at ih ⊢
    simp only [List.map_cons, List.find?_cons]
    by_cases hc : r.path = p
    · rw [show decide (r.path = p) = true from by simp [hc]]
      rfl
    · rw [show decide (r.path = p) = false from by simp [hc]]
      exact ih

theorem pathIdx_get (rows : List Track) (hp : rows.Pairwise (fun a b => a.path ≠ b.path))
    (p : String) : assocGet (pathIdx rows) p = rows.find? (fun r => r.path = p) := by
  unfold pathIdx
  rw [assoc_fold_fresh rows [] (by simp) hp, List.nil_append]
  exact assocGet_map_tracks rows p

theorem upsert_fold_fresh :
    ∀ (ts : List Track) (rows : List Track),
      (∀ t ∈ ts, ∀ r ∈ rows, r.id ≠ t.id) →
      ts.Pairwise (fun a b => a.id ≠ b.id) →
      ts.foldl upsertTrack rows = rows ++ ts := by
  intro ts
  induction ts with
  | nil => intro rows _ _; simp
  | cons t ts ih =>
    intro rows hf hp
    rw [List.foldl_cons]
    have hany : rows.any (fun r => r.id = t.id) = false := by
      rw [List.any_eq_false]
      intro r hr
      simp [hf t (List.mem_cons_self t ts) r hr]
    have hins : upsertTrack rows t = rows ++ [t] := by
      unfold upsertTrack
      rw [hany]
      rfl
    rw [hins, ih (rows ++ [t]) ?_ (List.pairwise_cons.mp hp).2]
    · simp
    · intro t' ht' r hr
      rcases List.mem_append.mp hr with hr1 | hr2
      · exact hf t' (List.mem_cons_of_mem t ht') r hr1
      · rw [List.mem_singleton.mp hr2]
        exact (List.pairwise_cons.mp hp).1 t' ht'

theorem upd_fold_tracks :
    ∀ (us : List Track) (s : Store) (ops : List StoreOp),
      ((us.foldl (fun acc t => (update_track acc.1 t, acc.2 ++ [StoreOp.updateTrack t]))
        (s, ops)).1).tracks =
      s.tracks.map (fun r => applyUpd us r) := by
  intro us
  induction us with
  | nil =>
    intro s ops
    exact (List.map_id' s.tracks).symm
  | cons u us ih =>
    intro s ops
    rw [List.foldl_cons]
    dsimp only
    rw [ih (update_track s u) (ops ++ [StoreOp.updateTrack u])]
    rw [show (update_track s u).tracks =
      s.tracks.map (fun r => if r.id = u.id then { u with added_at := r.added_at } else r)
      from rfl, List.map_map]
    rfl

theorem playlistStep_store (m : List (String × String)) (acc : Store × List StoreOp × Nat × Nat)
    (pl : ImportedPlaylist) :
    ((playlistStep m acc pl).1).tracks = (acc.1).tracks ∧
    ((playlistStep m acc pl).1).cues = (acc.1).cues := by
  unfold playlistStep
  dsimp only
  (repeat' split) <;> exact ⟨rfl, rfl⟩

theorem pl_fold_store :
    ∀ (ps : List ImportedPlaylist) (m : List (String × String))
      (acc : Store × List StoreOp × Nat × Nat),
      ((ps.foldl (playlistStep m) acc).1).tracks = (acc.1).tracks ∧
      ((ps.foldl (playlistStep m) acc).1).cues = (acc.1).cues := by
  intro ps
  induction ps with
  | nil => intro m acc; exact ⟨rfl, rfl⟩
  | cons p ps ih =>
    intro m acc
    rw [List.foldl_cons]
    exact ⟨(ih m (playlistStep m acc p)).1.trans (playlistStep_store m acc p).1,
      (ih m (playlistStep m acc p)).2.trans (playlistStep_store m acc p).2⟩

theorem phase4Step_import (db : Store) (ebp : List (String × Track))
    (cm : List (String × List CuePoint)) (ms : MergeStrategy) (cs : CueMergeStrategy)
    (st : Phase4State) (t : Track) :
    (phase4Step db ebp cm ms cs st t).tracks_to_import =
      st.tracks_to_import ++ (if (assocGet ebp t.path).isNone then [t] else []) := by
  unfold phase4Step
  cases assocGet ebp t.path <;> dsimp only <;> (repeat' split) <;> simp_all

theorem phase4Step_update (db : Store) (ebp : List (String × Track))
    (cm : List (String × List CuePoint)) (ms : MergeStrategy) (cs : CueMergeStrategy)
    (st : Phase4State) (t : Track) :
    (phase4Step db ebp cm ms cs st t).tracks_to_update =
      st.tracks_to_update ++
        (match assocGet ebp t.path with
         | some h =>
           if (merge_track h t ms).has_changes then [(merge_track h t ms).merged] else []
         | none => []) := by
  unfold phase4Step
  cases assocGet ebp t.path <;> dsimp only <;> (repeat' split) <;> simp_all

theorem phase4Step_updated (db : Store) (ebp : List (String × Track))
    (cm : List (String × List CuePoint)) (ms : MergeStrategy) (cs : CueMergeStrategy)
    (st : Phase4State) (t : Track) :
    (phase4Step db ebp cm ms cs st t).tracks_updated =
      st.tracks_updated +
        (match assocGet ebp t.path with
         | some h => if (merge_track h t ms).has_changes then 1 else 0
         | none => 0) := by
  unfold phase4Step
  cases assocGet ebp t.path <;> dsimp only <;> (repeat' split) <;> simp_all

theorem phase4Step_cps (db : Store) (ebp : List (String × Track))
    (cm : List (String × List CuePoint)) (ms : MergeStrategy) (cs : CueMergeStrategy)
    (st : Phase4State) (t : Track) :
    (phase4Step db ebp cm ms cs st t).cue_points_synced =
      st.cue_points_synced +
        (match assocGet ebp t.path with
         | some h =>
           if (merge_cue_points (get_cue_points_for_track db h.id)
                ((assocGet cm t.path).getD []) h.id cs).has_changes then
             (merge_cue_points (get_cue_points_for_track db h.id)
                ((assocGet cm t.path).getD []) h.id cs).added
           else 0
         | none =>
           match assocGet cm t.path with
           | some cues => cues.length
           | none => 0) := by
  unfold phase4Step
  cases assocGet ebp t.path <;> dsimp only <;> (repeat' split) <;> simp_all

theorem phase4_fold_import (db : Store) (ebp : List (String × Track))
    (cm : List (String × List CuePoint)) (ms : MergeStrategy) (cs : CueMergeStrategy) :
    ∀ (T : List Track) (st : Phase4State),
      (T.foldl (phase4Step db ebp cm ms cs) st).tracks_to_import =
        st.tracks_to_import ++ importsOf ebp T := by
  intro T
  induction T with
  | nil => intro st; simp [importsOf]
  | cons t ts ih =>
    intro st
    rw [List.foldl_cons, ih, phase4Step_import]
    by_cases hn : (assocGet ebp t.path).isNone <;>
      simp [importsOf, List.filter_cons, hn, List.append_assoc]

theorem phase4_fold_update (db : Store) (ebp : List (String × Track))
    (cm : List (String × List CuePoint)) (ms : MergeStrategy) (cs : CueMergeStrategy) :
    ∀ (T : List Track) (st : Phase4State),
      (T.foldl (phase4Step db ebp cm ms cs) st).tracks_to_update =
        st.tracks_to_update ++ updatesOf ebp ms T := by
  intro T
  induction T with
  | nil => intro st; simp [updatesOf]
  | cons t ts ih =>
    intro st
    rw [List.foldl_cons, ih, phase4Step_update, List.append_assoc]
    congr 1
    rw [updatesOf, updatesOf, List.filterMap_cons]
    cases assocGet ebp t.path with
    | none => simp
    | some h =>
      dsimp only
      split <;> simp_all

theorem phase4_fold_updated (db : Store) (ebp : List (String × Track))
    (cm : List (String × List CuePoint)) (ms : MergeStrategy) (cs : CueMergeStrategy) :
    ∀ (T : List Track) (st : Phase4State),
      (T.foldl (phase4Step db ebp cm ms cs) st).tracks_updated =
        st.tracks_updated + updatedCountOf ebp ms T := by
  intro T
  induction T with
  | nil => intro st; simp [updatedCountOf]
  | cons t ts ih =>
    intro st
    rw [List.foldl_cons, ih, phase4Step_updated, updatedCountOf]
    omega

theorem phase4_fold_cps (db : Store) (ebp : List (String × Track))
    (cm : List (String × List CuePoint)) (cs : CueMergeStrategy) (ms : MergeStrategy) :
    ∀ (T : List Track) (st : Phase4State),
      (T.foldl (phase4Step db ebp cm ms cs) st).cue_points_synced =
        st.cue_points_synced + cpsCountOf db ebp cm cs T := by
  intro T
  induction T with
  | nil => intro st; simp [cpsCountOf]
  | cons t ts ih =>
    intro st
    rw [List.foldl_cons, ih, phase4Step_cps, cpsCountOf]
    omega

theorem sync_ok_updated (doc : TraktorNML) (db : Store) (sp : Option Bool) :
    (sync_traktor_nml (.ok doc) none none sp db).1.toOption.map
      EnhancedSyncStats.tracks_updated = some (run4 db doc).tracks_updated := rfl

theorem sync_ok_cps (doc : TraktorNML) (db : Store) (sp : Option Bool) :
    (sync_traktor_nml (.ok doc) none none sp db).1.toOption.map
      EnhancedSyncStats.cue_points_synced = some (run4 db doc).cue_points_synced := rfl

theorem save_tracks (s : Store) (cs : List CuePoint) :
    (save_cue_points s cs).tracks = s.tracks := rfl

theorem insert_tracks_tracks (s : Store) (ts : List Track) :
    (insert_tracks s ts).tracks = ts.foldl upsertTrack s.tracks := rfl

theorem sync_ok_store_tracks (doc : TraktorNML) (db : Store) (sp : Option Bool) :
    ((sync_traktor_nml (.ok doc) none none sp db).2.1).tracks =
      ((run4 db doc).tracks_to_import.foldl upsertTrack db.tracks).map
        (fun r => applyUpd (run4 db doc).tracks_to_update r) := by
  unfold sync_traktor_nml
  dsimp only
  split
  · split
    · rw [(pl_fold_store _ _ _).1]
      dsimp only
      split
      · rw [save_tracks, upd_fold_tracks]
        split
        · rw [insert_tracks_tracks]
          rfl
        · have h' : ¬((run4 db doc).tracks_to_import.isEmpty = false) := by assumption
          have hnil : (run4 db doc).tracks_to_import = [] := by
            cases hL : (run4 db doc).tracks_to_import with
            | nil => rfl
            | cons a l => rw [hL] at h'; simp at h'
          rw [hnil]
          rfl
      · rw [upd_fold_tracks]
        split
        · rw [insert_tracks_tracks]
          rfl
        · have h' : ¬((run4 db doc).tracks_to_import.isEmpty = false) := by assumption
          have hnil : (run4 db doc).tracks_to_import = [] := by
            cases hL : (run4 db doc).tracks_to_import with
            | nil => rfl
            | cons a l => rw [hL] at h'; simp at h'
          rw [hnil]
          rfl
    · dsimp only
      split
      · rw [save_tracks, upd_fold_tracks]
        split
        · rw [insert_tracks_tracks]
          rfl
        · have h' : ¬((run4 db doc).tracks_to_import.isEmpty = false) := by assumption
          have hnil : (run4 db doc).tracks_to_import = [] := by
            cases hL : (run4 db doc).tracks_to_import with
            | nil => rfl
            | cons a l => rw [hL] at h'; simp at h'
          rw [hnil]
          rfl
      · rw [upd_fold_tracks]
        split
        · rw [insert_tracks_tracks]
          rfl
        · have h' : ¬((run4 db doc).tracks_to_import.isEmpty = false) := by assumption
          have hnil : (run4 db doc).tracks_to_import = [] := by
            cases hL : (run4 db doc).tracks_to_import with
            | nil => rfl
            | cons a l => rw [hL] at h'; simp at h'
          rw [hnil]
          rfl
  · dsimp only
    split
    · rw [save_tracks, upd_fold_tracks]
      split
      · rw [insert_tracks_tracks]
        rfl
      · have h' : ¬((run4 db doc).tracks_to_import.isEmpty = false) := by assumption
        have hnil : (run4 db doc).tracks_to_import = [] := by
          cases hL : (run4 db doc).tracks_to_import with
          | nil => rfl
          | cons a l => rw [hL] at h'; simp at h'
        rw [hnil]
        rfl
    · rw [upd_fold_tracks]
      split
      · rw [insert_tracks_tracks]
        rfl
      · have h' : ¬((run4 db doc).tracks_to_import.isEmpty = false) := by assumption
        have hnil : (run4 db doc).tracks_to_import = [] := by
          cases hL : (run4 db doc).tracks_to_import with
          | nil => rfl
          | cons a l => rw [hL] at h'; simp at h'
        rw [hnil]
        rfl

theorem updatedCountOf_zero (ebp : List (String × Track)) (ms : MergeStrategy) :
    ∀ T : List Track,
      (∀ t ∈ T,
        (match assocGet ebp t.path with
         | some h => if (merge_track h t ms).has_changes then 1 else 0
         | none => 0) = 0) →
      updatedCountOf ebp ms T = 0 := by
  intro T
  induction T with
  | nil => intro _; rfl
  | cons t ts ih =>
    intro hz
    rw [updatedCountOf, hz t (List.mem_cons_self t ts),
      ih (fun t' ht' => hz t' (List.mem_cons_of_mem t ht'))]

theorem cpsCountOf_zero (db : Store) (ebp : List (String × Track))
    (cm : List (String × List CuePoint)) (cs : CueMergeStrategy) :
    ∀ T : List Track,
      (∀ t ∈ T,
        (match assocGet ebp t.path with
         | some h =>
           if (merge_cue_points (get_cue_points_for_track db h.id)
                ((assocGet cm t.path).getD []) h.id cs).has_changes then
             (merge_cue_points (get_cue_points_for_track db h.id)
                ((assocGet cm t.path).getD []) h.id cs).added
           else 0
         | none =>
           match assocGet cm t.path with
           | some cues => cues.length
           | none => 0) = 0) →
      cpsCountOf db ebp cm cs T = 0 := by
  intro T
  induction T with
  | nil => intro _; rfl
  | cons t ts ih =>
    intro hz
    rw [cpsCountOf, hz t (List.mem_cons_self t ts),
      ih (fun t' ht' => hz t' (List.mem_cons_of_mem t ht'))]

theorem merge_cue_smart_contrib (E T : List CuePoint) (tid : String) :
    (if (merge_cue_points E T tid .SmartMerge).has_changes then
      (merge_cue_points E T tid .SmartMerge).added else 0) =
      (if E = [] then T.length else 0) := by
  unfold merge_cue_points
  cases E with
  | nil =>
    simp
    intro h
    subst h
    rfl
  | cons e es => simp

theorem updatesOf_mem {dbRows T : List Track}
    (hdbp : dbRows.Pairwise (fun a b => a.path ≠ b.path))
    {u : Track} (hu : u ∈ updatesOf (pathIdx dbRows) .SmartMerge T) :
    ∃ t' ∈ T, ∃ h' ∈ dbRows, h'.path = t'.path ∧
      (merge_track h' t' .SmartMerge).has_changes = true ∧
      u = (merge_track h' t' .SmartMerge).merged := by
  obtain ⟨t', ht', heq⟩ := List.mem_filterMap.mp hu
  rw [pathIdx_get dbRows hdbp t'.path] at heq
  cases hfind : dbRows.find? (fun r => r.path = t'.path) with
  | none => rw [hfind] at heq; simp at heq
  | some h' =>
    rw [hfind] at heq
    dsimp only at heq
    by_cases hch : (merge_track h' t' .SmartMerge).has_changes = true
    · rw [if_pos hch] at heq
      exact ⟨t', ht', h', List.mem_of_find?_eq_some hfind,
        by simpa using List.find?_some hfind, hch, (Option.some.inj heq).symm⟩
    · rw [if_neg hch] at heq
      simp at heq

theorem updatesOf_unique {dbRows T : List Track}
    (hTp : T.Pairwise (fun a b => a.path ≠ b.path))
    (hdbp : dbRows.Pairwise (fun a b => a.path ≠ b.path))
    (hdbi : dbRows.Pairwise (fun a b => a.id ≠ b.id))
    {h t : Track} (hh : h ∈ dbRows) (ht : t ∈ T) (hpath : h.path = t.path)
    {u : Track} (hu : u ∈ updatesOf (pathIdx dbRows) .SmartMerge T) (huid : u.id = h.id) :
    u = (merge_track h t .SmartMerge).merged ∧
      (merge_track h t .SmartMerge).has_changes = true := by
  obtain ⟨t', ht', h', hh', hpath', hch', hueq⟩ := updatesOf_mem hdbp hu
  have hid' : h'.id = h.id := by
    rw [← huid, hueq]
    exact ((merge_track_merged_frame h' t' _).1).symm
  have hhh : h' = h := pairwise_attr_eq (fun r : Track => r.id) hdbi hh' hh hid'
  subst hhh
  have htt : t' = t :=
    pairwise_attr_eq (fun r : Track => r.path) hTp ht' ht
      (by show t'.path = t.path; rw [← hpath', hpath])
  subst htt
  exact ⟨hueq, hch'⟩

theorem applyUpd_updatesOf_matched {dbRows T : List Track}
    (hTp : T.Pairwise (fun a b => a.path ≠ b.path))
    (hdbp : dbRows.Pairwise (fun a b => a.path ≠ b.path))
    (hdbi : dbRows.Pairwise (fun a b => a.id ≠ b.id))
    {h t : Track} (hh : h ∈ dbRows) (ht : t ∈ T) (hpath : h.path = t.path) :
    applyUpd (updatesOf (pathIdx dbRows) .SmartMerge T) h =
      if (merge_track h t .SmartMerge).has_changes then
        (merge_track h t .SmartMerge).merged
      else h := by
  have hfind : dbRows.find? (fun r => r.path = t.path) = some h := by
    rw [← hpath]
    exact find?_path_self hdbp hh
  by_cases hch : (merge_track h t .SmartMerge).has_changes = true
  · rw [if_pos hch]
    have hu0 : (merge_track h t .SmartMerge).merged ∈
        updatesOf (pathIdx dbRows) .SmartMerge T := by
      apply List.mem_filterMap.mpr
      refine ⟨t, ht, ?_⟩
      rw [pathIdx_get dbRows hdbp t.path, hfind]
      dsimp only
      rw [if_pos hch]
    exact applyUpd_unique hu0 (merge_track_merged_frame h t _).1
      (merge_track_merged_frame h t _).2.2
      (fun u hu huid => (updatesOf_unique hTp hdbp hdbi hh ht hpath hu huid).1)
  · rw [if_neg hch]
    apply applyUpd_not_mem
    intro u hu huid
    exact hch (updatesOf_unique hTp hdbp hdbi hh ht hpath hu huid).2

theorem applyUpd_updatesOf_nomatch {dbRows T : List Track}
    (hTp : T.Pairwise (fun a b => a.path ≠ b.path))
    (hdbp : dbRows.Pairwise (fun a b => a.path ≠ b.path))
    (hdbi : dbRows.Pairwise (fun a b => a.id ≠ b.id))
    {h : Track} (hh : h ∈ dbRows)
    (hno : T.find? (fun t => t.path = h.path) = none) :
    applyUpd (updatesOf (pathIdx dbRows) .SmartMerge T) h = h := by
  apply applyUpd_not_mem
  intro u hu huid
  obtain ⟨t', ht', h', hh', hpath', hch', hueq⟩ := updatesOf_mem hdbp hu
  have hid' : h'.id = h.id := by
    rw [← huid, hueq]
    exact ((merge_track_merged_frame h' t' _).1).symm
  have hhh : h' = h := pairwise_attr_eq (fun r : Track => r.id) hdbi hh' hh hid'
  subst hhh
  have := List.find?_eq_none.mp hno t' ht'
  simp [hpath'] at this

theorem applyUpd_updatesOf_fresh {dbRows T : List Track}
    (hdbp : dbRows.Pairwise (fun a b => a.path ≠ b.path))
    {x : Track} (hx : ∀ r ∈ dbRows, r.id ≠ x.id) :
    applyUpd (updatesOf (pathIdx dbRows) .SmartMerge T) x = x := by
  apply applyUpd_not_mem
  intro u hu huid
  obtain ⟨t', ht', h', hh', hpath', hch', hueq⟩ := updatesOf_mem hdbp hu
  apply hx h' hh'
  rw [← huid, hueq]
  exact ((merge_track_merged_frame h' t' _).1).symm

theorem applyUpd_updatesOf_pres {dbRows T : List Track}
    (hTp : T.Pairwise (fun a b => a.path ≠ b.path))
    (hdbp : dbRows.Pairwise (fun a b => a.path ≠ b.path))
    (hdbi : dbRows.Pairwise (fun a b => a.id ≠ b.id))
    {h : Track} (hh : h ∈ dbRows) :
    (applyUpd (updatesOf (pathIdx dbRows) .SmartMerge T) h).path = h.path ∧
    (applyUpd (updatesOf (pathIdx dbRows) .SmartMerge T) h).id = h.id := by
  cases hfind : T.find? (fun t => t.path = h.path) with
  | none =>
    rw [applyUpd_updatesOf_nomatch hTp hdbp hdbi hh hfind]
    exact ⟨rfl, rfl⟩
  | some t =>
    have ht := List.mem_of_find?_eq_some hfind
    have hpath : h.path = t.path := by
      have h2 : t.path = h.path := by simpa using List.find?_some hfind
      exact h2.symm
    rw [applyUpd_updatesOf_matched hTp hdbp hdbi hh ht hpath]
    by_cases hch : (merge_track h t .SmartMerge).has_changes = true
    · rw [if_pos hch]
      exact ⟨(merge_track_merged_frame h t _).2.1, (merge_track_merged_frame h t _).1⟩
    · rw [if_neg hch]
      exact ⟨rfl, rfl⟩

theorem find?_map_path (A : Track → Track) (p : String) :
    ∀ rows : List Track, (∀ r ∈ rows, (A r).path = r.path) →
      (rows.map A).find? (fun x => x.path = p) =
        (rows.find? (fun x => x.path = p)).map A := by
  intro rows
  induction rows with
  | nil => intro _; rfl
  | cons r rows ih =>
    intro hpres
    simp only [List.map_cons, List.find?_cons]
    rw [show decide ((A r).path = p) = decide (r.path = p) from by
      rw [hpres r (List.mem_cons_self r rows)]]
    by_cases hc : r.path = p
    · rw [show decide (r.path = p) = true from by simp [hc]]
      rfl
    · rw [show decide (r.path = p) = false from by simp [hc]]
      exact ih (fun r' hr' => hpres r' (List.mem_cons_of_mem r hr'))

theorem run4_updated_zero (S1 : Store) (doc : TraktorNML)
    (hs1p : S1.tracks.Pairwise (fun a b => a.path ≠ b.path))
    (hper : ∀ t ∈ docT doc, ∃ r,
      S1.tracks.find? (fun x => x.path = t.path) = some r ∧
      (merge_track r t .SmartMerge).has_changes = false) :
    (run4 S1 doc).tracks_updated = 0 := by
  unfold run4
  rw [phase4_fold_updated]
  rw [updatedCountOf_zero _ _ _ ?_]
  · rfl
  · intro t ht
    obtain ⟨r, hfr, hch⟩ := hper t ht
    rw [pathIdx_get S1.tracks hs1p t.path, hfr]
    dsimp only
    rw [hch]
    simp

theorem run4_cps_zero (S1 : Store) (doc : TraktorNML)
    (hs1p : S1.tracks.Pairwise (fun a b => a.path ≠ b.path))
    (hper : ∀ t ∈ docT doc, ∃ r,
      S1.tracks.find? (fun x => x.path = t.path) = some r ∧
      (merge_track r t .SmartMerge).has_changes = false)
    (hcue : ∀ t ∈ docT doc, ∀ cues, assocGet (docM doc) t.path = some cues → cues ≠ [] →
      ∀ r ∈ S1.tracks, r.path = t.path → get_cue_points_for_track S1 r.id ≠ []) :
    (run4 S1 doc).cue_points_synced = 0 := by
  unfold run4
  rw [phase4_fold_cps]
  rw [cpsCountOf_zero _ _ _ _ _ ?_]
  · rfl
  · intro t ht
    obtain ⟨r, hfr, _⟩ := hper t ht
    have hrmem := List.mem_of_find?_eq_some hfr
    have hrpath : r.path = t.path := by simpa using List.find?_some hfr
    rw [pathIdx_get S1.tracks hs1p t.path, hfr]
    dsimp only
    rw [merge_cue_smart_contrib]
    by_cases hE : get_cue_points_for_track S1 r.id = []
    · rw [if_pos hE]
      cases hc : assocGet (docM doc) t.path with
      | none => rfl
      | some cues =>
        by_cases hcn : cues = []
        · subst hcn
          rfl
        · exact absurd hE (hcue t ht cues hc hcn r hrmem hrpath)
    · rw [if_neg hE]

theorem store1_analysis (doc : TraktorNML) (db : Store) (sp : Option Bool)
    (hTp : (docT doc).Pairwise (fun a b => a.path ≠ b.path))
    (hTi : (docT doc).Pairwise (fun a b => a.id ≠ b.id))
    (hdbp : db.tracks.Pairwise (fun a b => a.path ≠ b.path))
    (hdbi : db.tracks.Pairwise (fun a b => a.id ≠ b.id))
    (hfresh : ∀ t ∈ docT doc, (∀ r ∈ db.tracks, r.path ≠ t.path) →
      ∀ r ∈ db.tracks, r.id ≠ t.id) :
    ((sync_traktor_nml (.ok doc) none none sp db).2.1).tracks.Pairwise
      (fun a b => a.path ≠ b.path) ∧
    (∀ t ∈ docT doc, ∃ r,
      ((sync_traktor_nml (.ok doc) none none sp db).2.1).tracks.find?
        (fun x => x.path = t.path) = some r ∧
      (merge_track r t .SmartMerge).has_changes = false) := by
  have himpMem : ∀ t ∈ importsOf (pathIdx db.tracks) (docT doc),
      t ∈ docT doc ∧ db.tracks.find? (fun r => r.path = t.path) = none := by
    intro t ht
    obtain ⟨htT, hpred⟩ := List.mem_filter.mp ht
    rw [pathIdx_get db.tracks hdbp t.path] at hpred
    exact ⟨htT, Option.isNone_iff_eq_none.mp hpred⟩
  have himpPathFresh : ∀ t ∈ importsOf (pathIdx db.tracks) (docT doc),
      ∀ r ∈ db.tracks, r.path ≠ t.path := by
    intro t ht r hr
    have := List.find?_eq_none.mp (himpMem t ht).2 r hr
    simpa using this
  have himpFreshDb : ∀ t ∈ importsOf (pathIdx db.tracks) (docT doc),
      ∀ r ∈ db.tracks, r.id ≠ t.id := by
    intro t ht
    exact hfresh t (himpMem t ht).1 (himpPathFresh t ht)
  have himpPairId : (importsOf (pathIdx db.tracks) (docT doc)).Pairwise
      (fun a b => a.id ≠ b.id) :=
    List.Pairwise.sublist (List.filter_sublist _) hTi
  have himpPairPath : (importsOf (pathIdx db.tracks) (docT doc)).Pairwise
      (fun a b => a.path ≠ b.path) :=
    List.Pairwise.sublist (List.filter_sublist _) hTp
  have hinsert : (importsOf (pathIdx db.tracks) (docT doc)).foldl upsertTrack db.tracks =
      db.tracks ++ importsOf (pathIdx db.tracks) (docT doc) :=
    upsert_fold_fresh _ db.tracks himpFreshDb himpPairId
  have himp : (run4 db doc).tracks_to_import = importsOf (pathIdx db.tracks) (docT doc) := by
    unfold run4
    rw [phase4_fold_import]
    rfl
  have hupd : (run4 db doc).tracks_to_update =
      updatesOf (pathIdx db.tracks) .SmartMerge (docT doc) := by
    unfold run4
    rw [phase4_fold_update]
    rfl
  have hs1 : ((sync_traktor_nml (.ok doc) none none sp db).2.1).tracks =
      (db.tracks ++ importsOf (pathIdx db.tracks) (docT doc)).map
        (fun r => applyUpd (updatesOf (pathIdx db.tracks) .SmartMerge (docT doc)) r) := by
    rw [sync_ok_store_tracks doc db sp, himp, hupd, hinsert]
  have hIMPid : (importsOf (pathIdx db.tracks) (docT doc)).map
      (fun r => applyUpd (updatesOf (pathIdx db.tracks) .SmartMerge (docT doc)) r) =
      importsOf (pathIdx db.tracks) (docT doc) := by
    refine (List.map_congr_left fun x hx => ?_).trans (List.map_id' _)
    exact applyUpd_updatesOf_fresh hdbp (fun r hr => himpFreshDb x hx r hr)
  have hs1' : ((sync_traktor_nml (.ok doc) none none sp db).2.1).tracks =
      db.tracks.map
        (fun r => applyUpd (updatesOf (pathIdx db.tracks) .SmartMerge (docT doc)) r) ++
        importsOf (pathIdx db.tracks) (docT doc) := by
    rw [hs1, List.map_append, hIMPid]
  constructor
  · rw [hs1']
    rw [List.pairwise_append]
    refine ⟨?_, himpPairPath, ?_⟩
    · rw [List.pairwise_map]
      refine hdbp.imp_of_mem ?_
      intro a b ha hb hne
      rw [(applyUpd_updatesOf_pres hTp hdbp hdbi ha).1,
        (applyUpd_updatesOf_pres hTp hdbp hdbi hb).1]
      exact hne
    · intro a ha b hb
      obtain ⟨h0, hh0, rfl⟩ := List.mem_map.mp ha
      rw [(applyUpd_updatesOf_pres hTp hdbp hdbi hh0).1]
      exact himpPathFresh b hb h0 hh0
  · intro t ht
    rw [hs1']
    cases hfind : db.tracks.find? (fun x => x.path = t.path) with
    | some h =>
      have hh := List.mem_of_find?_eq_some hfind
      have hpath : h.path = t.path := by simpa using List.find?_some hfind
      have hmapfind : (db.tracks.map
          (fun r => applyUpd (updatesOf (pathIdx db.tracks) .SmartMerge (docT doc)) r)).find?
          (fun x => x.path = t.path) =
          some (applyUpd (updatesOf (pathIdx db.tracks) .SmartMerge (docT doc)) h) := by
        rw [find?_map_path _ t.path db.tracks
          (fun r hr => (applyUpd_updatesOf_pres hTp hdbp hdbi hr).1), hfind]
        rfl
      refine ⟨applyUpd (updatesOf (pathIdx db.tracks) .SmartMerge (docT doc)) h,
        find?_append_some _ _ hmapfind, ?_⟩
      rw [applyUpd_updatesOf_matched hTp hdbp hdbi hh ht hpath]
      by_cases hch : (merge_track h t .SmartMerge).has_changes = true
      · rw [if_pos hch]
        exact merge_track_smart_idem h t
      · rw [if_neg hch]
        simpa using hch
    | none =>
      have htI : t ∈ importsOf (pathIdx db.tracks) (docT doc) := by
        apply List.mem_filter.mpr
        refine ⟨ht, ?_⟩
        rw [pathIdx_get db.tracks hdbp t.path, hfind]
        rfl
      have hnone1 : (db.tracks.map
          (fun r => applyUpd (updatesOf (pathIdx db.tracks) .SmartMerge (docT doc)) r)).find?
          (fun x => x.path = t.path) = none := by
        rw [find?_map_path _ t.path db.tracks
          (fun r hr => (applyUpd_updatesOf_pres hTp hdbp hdbi hr).1), hfind]
        rfl
      refine ⟨t, ?_, merge_track_smart_self t⟩
      rw [find?_append_none _ _ hnone1]
      exact find?_path_self himpPairPath htI

/-- Claim C1 (amended): syncing twice with SmartMerge/SmartMerge is
idempotent for well-formed inputs — a document whose mapped tracks carry
pairwise-distinct paths and ids, against a store whose track rows carry
pairwise-distinct paths and ids and where a document track matching no
store path also matches no store id.  The second run reports
`tracks_updated = 0`; and provided every document path that supplies cue
points maps, after the first run, to a canonical track carrying at least
one cue, the second run also reports `cue_points_synced = 0`.  (The
unrestricted claim is refuted separately: a document listing one path
twice breaks idempotence.) -/
theorem C1_sync_idempotence (doc : TraktorNML) (db : Store) (sp : Option Bool)
    (hTp : (docT doc).Pairwise (fun a b => a.path ≠ b.path))
    (hTi : (docT doc).Pairwise (fun a b => a.id ≠ b.id))
    (hdbp : db.tracks.Pairwise (fun a b => a.path ≠ b.path))
    (hdbi : db.tracks.Pairwise (fun a b => a.id ≠ b.id))
    (hfresh : ∀ t ∈ docT doc, (∀ r ∈ db.tracks, r.path ≠ t.path) →
      ∀ r ∈ db.tracks, r.id ≠ t.id) :
    (sync_traktor_nml (.ok doc) none none sp
        (sync_traktor_nml (.ok doc) none none sp db).2.1).1.toOption.map
      EnhancedSyncStats.tracks_updated = some 0 ∧
    ((∀ t ∈ docT doc, ∀ cues, assocGet (docM doc) t.path = some cues → cues ≠ [] →
        ∀ r ∈ ((sync_traktor_nml (.ok doc) none none sp db).2.1).tracks, r.path = t.path →
          get_cue_points_for_track ((sync_traktor_nml (.ok doc) none none sp db).2.1)
            r.id ≠ []) →
      (sync_traktor_nml (.ok doc) none none sp
          (sync_traktor_nml (.ok doc) none none sp db).2.1).1.toOption.map
        EnhancedSyncStats.cue_points_synced = some 0) := by
  obtain ⟨hs1p, hper⟩ := store1_analysis doc db sp hTp hTi hdbp hdbi hfresh
  constructor
  · rw [sync_ok_updated, run4_updated_zero _ doc hs1p hper]
  · intro hcue
    rw [sync_ok_cps, run4_cps_zero _ doc hs1p hper hcue]

set_option maxRecDepth 1000000 in
/-- The unrestricted claim C1 is false: a document that lists the same
file twice — once with a real title, once with a blank one — is not
idempotent, because the duplicate upsert overwrites the merged title, so
the second run updates it again (`tracks_updated = 1`). -/
theorem C1_sync_idempotence_counterexample :
    (sync_traktor_nml (.ok c1Doc) none none (some false)
        (sync_traktor_nml (.ok c1Doc) none none (some false) emptyStore).2.1).1.toOption.map
      EnhancedSyncStats.tracks_updated = some 1 := by
  decide

set_option maxRecDepth 1000000 in
theorem C1_sync_idempotence_witness :
    ((docT c1DocW).Pairwise (fun a b => a.path ≠ b.path) ∧
     (docT c1DocW).Pairwise (fun a b => a.id ≠ b.id) ∧
     emptyStore.tracks.Pairwise (fun a b => a.path ≠ b.path) ∧
     emptyStore.tracks.Pairwise (fun a b => a.id ≠ b.id) ∧
     (∀ t ∈ docT c1DocW, (∀ r ∈ emptyStore.tracks, r.path ≠ t.path) →
       ∀ r ∈ emptyStore.tracks, r.id ≠ t.id) ∧
     (∀ t ∈ docT c1DocW, ∀ cues, assocGet (docM c1DocW) t.path = some cues → cues ≠ [] →
       ∀ r ∈ ((sync_traktor_nml (.ok c1DocW) none none (some false) emptyStore).2.1).tracks,
         r.path = t.path →
         get_cue_points_for_track
           ((sync_traktor_nml (.ok c1DocW) none none (some false) emptyStore).2.1)
           r.id ≠ [])) ∧
    ((sync_traktor_nml (.ok c1DocW) none none (some false)
        (sync_traktor_nml (.ok c1DocW) none none (some false) emptyStore).2.1).1.toOption.map
      EnhancedSyncStats.tracks_updated = some 0 ∧
     (sync_traktor_nml (.ok c1DocW) none none (some false)
        (sync_traktor_nml (.ok c1DocW) none none (some false) emptyStore).2.1).1.toOption.map
      EnhancedSyncStats.cue_points_synced = some 0) :=
  ⟨⟨by decide, by decide, by decide, by decide, by decide, by decide⟩,
   (C1_sync_idempotence c1DocW emptyStore (some false) (by decide) (by decide) (by decide)
     (by decide) (by decide)).1,
   (C1_sync_idempotence c1DocW emptyStore (some false) (by decide) (by decide) (by decide)
     (by decide) (by decide)).2 (by decide)⟩

/-! ## Theorems: parse-failure atomicity (claim C8) -/

/-- Claim C8: for every failing parse outcome and every choice of strategy
arguments and store, `sync_traktor_nml` returns the parse error, leaves the
store unchanged, and issues no store write at all — no track insert, track
update, cue-point save, or playlist operation. -/
theorem C8_parse_failure_atomic (e : String) (strategy cue_strategy : Option String)
    (sync_playlists : Option Bool) (db : Store) :
    sync_traktor_nml (.error e) strategy cue_strategy sync_playlists db =
      (.error e, db, []) := rfl

end Harmony
